import Mathlib

/-!
The bitmap outline computation of `MSVC_BadCodeGen.cpp`.

A shallow embedding of `bad_codegen_test` and of the lambda
`combine_shift_left_right` it defines, followed by theorems about them.

Conventions of the embedding.

* A `uint8_t` is a `Nat`; every store converts the stored `int` value with
  `to_uint8` (reduction modulo 256).  A `std::vector<uint8_t>` is a `List Nat`
  and a `std::vector<std::vector<uint8_t>>` is a `List (List Nat)`.
* The operands of `<<`, `>>` and `|` are `uint8_t` values promoted to `int`.
  They are non-negative and stay below `2 ^ 15`, so they are computed in `Nat`
  without loss.  The operator `~` leaves the non-negative range, so
  `e & ~v` is computed on 32-bit two's complement `int` values (`int_not`,
  `int_and`).
* Indexing a vector or a pointer outside the object is undefined behaviour in
  C++.  Every access of the embedding is checked, and an access outside the
  object ends the run with `Fault.out_of_range`, which records the source line
  of the access, the index and the size of the object.
* A pointer into the rows of `bitmap_in` or `bitmap_outline` is the index of
  the row; a pointer to one of the three scratch vectors is a `LineBuf`.
* A `for` loop whose body changes neither its index nor its bound runs
  `bound - index` times; such a loop is a recursion on that count.
* `size_t` values are `Nat`; the only subtraction, `n - 1`, wraps around to
  `2 ^ 64 - 1` at `n = 0` (`size_t_pred`).
-/

namespace BadCodeGen

/-- The ways a run can leave defined behaviour: an access at `index` into an
object of `size` elements, made by the statement at source line `line`. -/
inductive Fault where
  | out_of_range (line : Nat) (index : Int) (size : Nat)
  deriving DecidableEq

/-- A run either faults or yields a value. -/
abbrev Run := Except Fault

/-- Conversion of an `int` value to `uint8_t`. -/
def to_uint8 (v : Int) : Nat := (v % 256).toNat

/-- The operator `~` on an `int`: all bits flipped, the value `-v - 1`. -/
def int_not (v : Int) : Int := -v - 1

/-- The operator `&` on two `int` values of 32 bits, computed on their two's
complement representations. -/
def int_and (a b : Int) : Int :=
  let r : Nat := (a % 2 ^ 32).toNat &&& (b % 2 ^ 32).toNat
  if r < 2 ^ 31 then (r : Int) else (r : Int) - 2 ^ 32

/-- The value `n - 1` for a `size_t` `n` (64 bits). -/
def size_t_pred (n : Nat) : Nat := if n = 0 then 2 ^ 64 - 1 else n - 1

/-- The read `p[i]` of a byte through a pointer to the first element of `p`. -/
def read (line : Nat) (p : List Nat) (i : Int) : Run Nat :=
  if 0 ≤ i then
    match p[i.toNat]? with
    | some v => .ok v
    | none => .error (.out_of_range line i p.length)
  else .error (.out_of_range line i p.length)

/-- The store `p[i] = v` through a pointer to the first element of `p`; the
result is the new content of the object. -/
def write (line : Nat) (p : List Nat) (i : Int) (v : Int) : Run (List Nat) :=
  if 0 ≤ i ∧ i.toNat < p.length then .ok (p.set i.toNat (to_uint8 v))
  else .error (.out_of_range line i p.length)

/-- The row `bm[y]` of a vector of rows. -/
def vec_at (line : Nat) (bm : List (List Nat)) (y : Nat) : Run (List Nat) :=
  match bm[y]? with
  | some r => .ok r
  | none => .error (.out_of_range line y bm.length)

/-- The loop `for (size_t i = 1; i < w - 1; ++i)` of `combine_shift_left_right`
(lines 75-81), as a recursion on the number of iterations left.  `dp` and `sp`
are the offsets of the moving pointers `dst` and `src` from the start of their
lines, `dst` is the content of the destination line. -/
def combine_middle (src : List Nat) : Nat → Nat → Nat → List Nat → Run (Nat × Nat × List Nat)
  | 0, dp, sp, dst => .ok (dp, sp, dst)
  | n + 1, dp, sp, dst => do
    let a ← read 77 src ((sp : Int) + 0)
    let b ← read 77 src ((sp : Int) + 1)
    let left := to_uint8 (((a <<< 1) ||| (b >>> (8 - 1)) : Nat) : Int)
    let c ← read 78 src ((sp : Int) + (-1))
    let d ← read 78 src ((sp : Int) + 0)
    let right := to_uint8 (((c <<< (8 - 1)) ||| (d >>> 1) : Nat) : Int)
    let dst ← write 79 dst dp ((left ||| right : Nat) : Int)
    combine_middle src n (dp + 1) (sp + 1) dst

/-- The lambda `combine_shift_left_right(dst, src, w)` (lines 62-86): `dst` is
the content of the destination line before the call, `src` the source row; the
result is the content of the destination line after the call. -/
def combine_shift_left_right (dst : List Nat) (src : List Nat) (w : Nat) : Run (List Nat) :=
  if w = 1 then do
    let a ← read 65 src 0
    let b ← read 65 src 0
    write 65 dst 0 (((a <<< 1) ||| (b >>> 1) : Nat) : Int)
  else do
    -- leftmost
    let a ← read 69 src 0
    let b ← read 69 src 1
    let left := to_uint8 (((a <<< 1) ||| (b >>> (8 - 1)) : Nat) : Int)
    let a ← read 70 src 0
    let right := to_uint8 ((0 ||| (a >>> 1) : Nat) : Int)
    let dst ← write 71 dst 0 ((left ||| right : Nat) : Int)
    -- middle: dst++, src++, then the loop
    let (dp, sp, dst) ← combine_middle src (size_t_pred w - 1) 1 1 dst
    -- rightmost
    let a ← read 83 src ((sp : Int) + 0)
    let left := to_uint8 (((a <<< 1) ||| 0 : Nat) : Int)
    let c ← read 84 src ((sp : Int) + (-1))
    let d ← read 84 src ((sp : Int) + 0)
    let right := to_uint8 (((c <<< (8 - 1)) ||| (d >>> 1) : Nat) : Int)
    write 85 dst dp ((left ||| right : Nat) : Int)

/-- The three scratch vectors `buf1`, `buf2`, `buf3` (lines 57-59). -/
inductive LineBuf where
  | buf1
  | buf2
  | buf3
  deriving DecidableEq

/-- The storage the row scan writes: the output bitmap and the scratch vectors. -/
structure Mem where
  bitmap_outline : List (List Nat)
  buf1 : List Nat
  buf2 : List Nat
  buf3 : List Nat
  deriving DecidableEq

/-- The content of the scratch vector a line pointer designates. -/
def Mem.line (m : Mem) : LineBuf → List Nat
  | .buf1 => m.buf1
  | .buf2 => m.buf2
  | .buf3 => m.buf3

/-- Replace the content of the scratch vector a line pointer designates. -/
def Mem.set_line (m : Mem) (p : LineBuf) (v : List Nat) : Mem :=
  match p with
  | .buf1 => { m with buf1 := v }
  | .buf2 => { m with buf2 := v }
  | .buf3 => { m with buf3 := v }

/-- The loop `for (size_t x = 0; x < w; x++) dst[x] = e(x);` (lines 103, 122
and 136), as a recursion on the number of iterations left; `e x` evaluates
the right-hand side at `x`, `dst` is the content of the output row. -/
def fill_row (line : Nat) (e : Nat → Run Int) : Nat → Nat → List Nat → Run (List Nat)
  | 0, _, dst => .ok dst
  | n + 1, x, dst => do
    let v ← e x
    let dst ← write line dst x v
    fill_row line e n (x + 1) dst

/-- The right-hand side of line 104:
`(curr_line_LR[x] | next_line_LR[x] | src_next[x]) & ~src_curr[x]`. -/
def rhs_line0 (curr_line_LR next_line_LR src_next src_curr : List Nat) (x : Nat) : Run Int := do
  let a ← read 104 curr_line_LR x
  let b ← read 104 next_line_LR x
  let c ← read 104 src_next x
  let d ← read 104 src_curr x
  pure (int_and ((a ||| b ||| c : Nat) : Int) (int_not (d : Int)))

/-- The right-hand side of line 123:
`(prev_line_LR[x] | curr_line_LR[x] | next_line_LR[x] | src_prev[x] | src_next[x]) & ~src_curr[x]`. -/
def rhs_middle (prev_line_LR curr_line_LR next_line_LR src_prev src_next src_curr : List Nat)
    (x : Nat) : Run Int := do
  let a ← read 123 prev_line_LR x
  let b ← read 123 curr_line_LR x
  let c ← read 123 next_line_LR x
  let d ← read 123 src_prev x
  let e ← read 123 src_next x
  let f ← read 123 src_curr x
  pure (int_and ((a ||| b ||| c ||| d ||| e : Nat) : Int) (int_not (f : Int)))

/-- The right-hand side of line 137:
`(prev_line_LR[x] | curr_line_LR[x] | src_prev[x]) & ~src_curr[x]`. -/
def rhs_last (prev_line_LR curr_line_LR src_prev src_curr : List Nat) (x : Nat) : Run Int := do
  let a ← read 137 prev_line_LR x
  let b ← read 137 curr_line_LR x
  let c ← read 137 src_prev x
  let d ← read 137 src_curr x
  pure (int_and ((a ||| b ||| c : Nat) : Int) (int_not (d : Int)))

/-- The variables of the row scan that live across the tests of the loop
condition `y < h - 1` (line 117): the storage, the three line pointers, the two
row pointers `src_prev`, `src_curr` (row indices of `bitmap_in`) and `y`. -/
structure Scan where
  mem : Mem
  prev_line_LR : LineBuf
  curr_line_LR : LineBuf
  next_line_LR : LineBuf
  src_prev : Nat
  src_curr : Nat
  y : Nat
  deriving DecidableEq

/-- Lines 91-114: the declarations of the line pointers, output row 0, the first
rotation of the line pointers and `y++`. -/
def scan_line0 (bitmap_in : List (List Nat)) (w : Nat) (m : Mem) : Run Scan := do
  let prev_line_LR := LineBuf.buf1
  let curr_line_LR := LineBuf.buf2
  let next_line_LR := LineBuf.buf3
  -- line 0, no previous line
  let y := 0
  let dst ← vec_at 98 m.bitmap_outline y
  let src_curr := y
  let row_curr ← vec_at 99 bitmap_in src_curr
  let src_next := y + 1
  let row_next ← vec_at 100 bitmap_in src_next
  let m := m.set_line curr_line_LR (← combine_shift_left_right (m.line curr_line_LR) row_curr w)
  let m := m.set_line next_line_LR (← combine_shift_left_right (m.line next_line_LR) row_next w)
  let dst ← fill_row 104
    (rhs_line0 (m.line curr_line_LR) (m.line next_line_LR) row_next row_curr) w 0 dst
  let m := { m with bitmap_outline := m.bitmap_outline.set y dst }
  -- re-use and cycle buffers
  let tmp_line := prev_line_LR
  let prev_line_LR := curr_line_LR
  let curr_line_LR := next_line_LR
  let next_line_LR := tmp_line
  let src_prev := src_curr
  let src_curr := src_next
  pure { mem := m, prev_line_LR := prev_line_LR, curr_line_LR := curr_line_LR,
         next_line_LR := next_line_LR, src_prev := src_prev, src_curr := src_curr, y := y + 1 }

/-- One iteration of the loop of lines 117-133, with the `y++` that ends it. -/
def scan_middle (bitmap_in : List (List Nat)) (w : Nat) (s : Scan) : Run Scan := do
  let dst ← vec_at 119 s.mem.bitmap_outline s.y
  let src_next := s.y + 1
  let row_next ← vec_at 120 bitmap_in src_next
  let m := s.mem.set_line s.next_line_LR
    (← combine_shift_left_right (s.mem.line s.next_line_LR) row_next w)
  let row_prev ← vec_at 123 bitmap_in s.src_prev
  let row_curr ← vec_at 123 bitmap_in s.src_curr
  let dst ← fill_row 123
    (rhs_middle (m.line s.prev_line_LR) (m.line s.curr_line_LR) (m.line s.next_line_LR)
      row_prev row_next row_curr) w 0 dst
  let m := { m with bitmap_outline := m.bitmap_outline.set s.y dst }
  -- re-use and cycle buffers
  let tmp_line := s.prev_line_LR
  let prev_line_LR := s.curr_line_LR
  let curr_line_LR := s.next_line_LR
  let next_line_LR := tmp_line
  -- shift variables prev <- current <- next
  let src_prev := s.src_curr
  let src_curr := src_next
  pure { mem := m, prev_line_LR := prev_line_LR, curr_line_LR := curr_line_LR,
         next_line_LR := next_line_LR, src_prev := src_prev, src_curr := src_curr, y := s.y + 1 }

/-- The loop `for (; y < h - 1; y++)` of lines 117-133, as a recursion on the
number of iterations left. -/
def scan_middle_lines (bitmap_in : List (List Nat)) (w : Nat) : Nat → Scan → Run Scan
  | 0, s => .ok s
  | n + 1, s => do
    let s ← scan_middle bitmap_in w s
    scan_middle_lines bitmap_in w n s

/-- Lines 134-138: the last output row. -/
def scan_last (bitmap_in : List (List Nat)) (w : Nat) (s : Scan) : Run Mem := do
  let dst ← vec_at 135 s.mem.bitmap_outline s.y
  let row_prev ← vec_at 137 bitmap_in s.src_prev
  let row_curr ← vec_at 137 bitmap_in s.src_curr
  let dst ← fill_row 137
    (rhs_last (s.mem.line s.prev_line_LR) (s.mem.line s.curr_line_LR) row_prev row_curr) w 0 dst
  pure { s.mem with bitmap_outline := s.mem.bitmap_outline.set s.y dst }

/-- Lines 88-138: the row scan, from the storage `m` it starts with. -/
def row_scan (bitmap_in : List (List Nat)) (h w : Nat) (m : Mem) : Run Mem := do
  let s ← scan_line0 bitmap_in w m
  let s ← scan_middle_lines bitmap_in w (size_t_pred h - s.y) s
  scan_last bitmap_in w s

/-- Lines 53-138 as a function of the input bitmap `bitmap_in` and of the
output bitmap `bitmap_outline` allocated by the caller: the sizes `h` and `w`,
the three zero-filled scratch vectors, the row scan; the result is
`bitmap_outline` after the scan. -/
def outline (bitmap_in bitmap_outline : List (List Nat)) : Run (List (List Nat)) := do
  let h := bitmap_in.length
  let w := (← vec_at 54 bitmap_in 0).length
  let m : Mem := { bitmap_outline := bitmap_outline, buf1 := List.replicate w 0,
                   buf2 := List.replicate w 0, buf3 := List.replicate w 0 }
  let m ← row_scan bitmap_in h w m
  pure m.bitmap_outline

/-- The function `bad_codegen_test(width_in_bytes)` (lines 33-151).  The flag
tells whether `MSVC_WORKAROUND_FOR_THIS_ERROR` is defined: it makes
`src_prev` and `src_curr` pointers to `volatile`, which changes no value, and
selects one of the printed texts.  The result is `bitmap_outline` at the end
and the text written to `std::cout`.  A negative `width_in_bytes` is outside
the embedding. -/
def bad_codegen_test (MSVC_WORKAROUND_FOR_THIS_ERROR : Bool) (width_in_bytes : Nat) :
    Run (List (List Nat) × String) := do
  let height := 3
  let bitmap_in := List.replicate height (List.replicate width_in_bytes 0)
  let row1 ← vec_at 48 bitmap_in 1
  let row1 ← write 48 row1 0 0x70
  let bitmap_in := bitmap_in.set 1 row1
  let bitmap_outline := List.replicate height (List.replicate width_in_bytes 0)
  let bitmap_outline ← outline bitmap_in bitmap_outline
  let text := "Byte width = " ++ toString width_in_bytes ++ ", "
  let text := text ++ (if MSVC_WORKAROUND_FOR_THIS_ERROR then " With workaround, "
    else " No workaround, ")
  let text := text ++ " Result is "
  let byte ← read 149 (← vec_at 149 bitmap_outline 1) 0
  let text := text ++ (if byte != 0x88 then "bad" else "good")
  let text := text ++ "\n"
  pure (bitmap_outline, text)

/-! ## Closed forms used by the proofs -/

/-- The byte `combine_shift_left_right` stores at offset `i` of the destination
line, as one expression: a neighbour that does not exist contributes `0`. -/
def shift_byte (src : List Nat) (i : Nat) : Nat :=
  (((src.getD i 0 <<< 1) ||| (src.getD (i + 1) 0 >>> 7)) % 256 |||
    ((if 1 ≤ i then src.getD (i - 1) 0 <<< 7 else 0) ||| (src.getD i 0 >>> 1)) % 256) % 256

/-- The line `combine_shift_left_right` produces from the row `src`. -/
def shift_line (src : List Nat) : List Nat := (List.range src.length).map (shift_byte src)

/-- Output row 0 as line 104 computes it. -/
def first_row (bitmap_in : List (List Nat)) (w : Nat) : List Nat :=
  (List.range w).map fun x => to_uint8 (int_and
    (((shift_line (bitmap_in.getD 0 [])).getD x 0 ||| (shift_line (bitmap_in.getD 1 [])).getD x 0 |||
      (bitmap_in.getD 1 []).getD x 0 : Nat) : Int)
    (int_not (((bitmap_in.getD 0 []).getD x 0 : Nat) : Int)))

/-- Output row `y` as line 123 computes it. -/
def middle_row (bitmap_in : List (List Nat)) (w y : Nat) : List Nat :=
  (List.range w).map fun x => to_uint8 (int_and
    (((shift_line (bitmap_in.getD (y - 1) [])).getD x 0 ||| (shift_line (bitmap_in.getD y [])).getD x 0 |||
      (shift_line (bitmap_in.getD (y + 1) [])).getD x 0 ||| (bitmap_in.getD (y - 1) []).getD x 0 |||
      (bitmap_in.getD (y + 1) []).getD x 0 : Nat) : Int)
    (int_not (((bitmap_in.getD y []).getD x 0 : Nat) : Int)))

/-- Output row `y` as line 137 computes it. -/
def last_row (bitmap_in : List (List Nat)) (w y : Nat) : List Nat :=
  (List.range w).map fun x => to_uint8 (int_and
    (((shift_line (bitmap_in.getD (y - 1) [])).getD x 0 ||| (shift_line (bitmap_in.getD y [])).getD x 0 |||
      (bitmap_in.getD (y - 1) []).getD x 0 : Nat) : Int)
    (int_not (((bitmap_in.getD y []).getD x 0 : Nat) : Int)))

/-- The state of the row scan when the loop condition of line 117 is tested
with `y = k`. -/
structure ScanInv (bitmap_in : List (List Nat)) (w k : Nat) (s : Scan) : Prop where
  y_eq : s.y = k
  prev_eq : s.src_prev + 1 = k
  curr_eq : s.src_curr = k
  ne_prev_curr : s.prev_line_LR ≠ s.curr_line_LR
  ne_curr_next : s.curr_line_LR ≠ s.next_line_LR
  ne_prev_next : s.prev_line_LR ≠ s.next_line_LR
  prev_line : s.mem.line s.prev_line_LR = shift_line (bitmap_in.getD (k - 1) [])
  curr_line : s.mem.line s.curr_line_LR = shift_line (bitmap_in.getD k [])
  next_len : (s.mem.line s.next_line_LR).length = w
  out_len : s.mem.bitmap_outline.length = bitmap_in.length
  out_rows : ∀ y, y < bitmap_in.length → (s.mem.bitmap_outline.getD y []).length = w
  out_first : s.mem.bitmap_outline.getD 0 [] = first_row bitmap_in w
  out_mid : ∀ y, 1 ≤ y → y < k → s.mem.bitmap_outline.getD y [] = middle_row bitmap_in w y

/-- The output bitmap: row 0 from line 104, the rows below from line 123, the
last row from line 137. -/
def outline_rows (bitmap_in : List (List Nat)) (w : Nat) : List (List Nat) :=
  (List.range bitmap_in.length).map fun y =>
    if y = 0 then first_row bitmap_in w
    else if y + 1 < bitmap_in.length then middle_row bitmap_in w y
    else last_row bitmap_in w y

/-- The input bitmap `bad_codegen_test` builds (lines 43-48). -/
def test_bitmap (width_in_bytes : Nat) : List (List Nat) :=
  (List.replicate 3 (List.replicate width_in_bytes 0)).set 1
    ((List.replicate width_in_bytes 0).set 0 0x70)

/-- Pixel `p` of a row: bit `7 - p mod 8` of byte `p div 8`. -/
def row_pixel (row : List Nat) (p : Nat) : Bool := (row.getD (p / 8) 0).testBit (7 - p % 8)

/-- Pixel `(y, p)` of a bitmap: bit `7 - p mod 8` of byte `p div 8` of row `y`. -/
def pixel (bm : List (List Nat)) (y p : Nat) : Bool := row_pixel (bm.getD y []) p

/-- Whether a pixel next to `p` in row `k`, to the left or to the right, is set. -/
def beside (bm : List (List Nat)) (k p : Nat) : Bool :=
  (decide (1 ≤ p) && pixel bm k (p - 1)) || pixel bm k (p + 1)

/-- Whether one of the up to eight pixels around `(y, p)` is set. -/
def around (bm : List (List Nat)) (y p : Nat) : Bool :=
  (decide (1 ≤ y) && (beside bm (y - 1) p || pixel bm (y - 1) p)) || beside bm y p ||
    (decide (y + 1 < bm.length) && (beside bm (y + 1) p || pixel bm (y + 1) p))

/-- A bitmap of two rows of two bytes. -/
def sample_2x2 : List (List Nat) := [[0x01, 0x80], [0x70, 0x00]]

/-- A bitmap of three rows of two bytes. -/
def sample_3x2 : List (List Nat) := [[0x00, 0x01], [0x70, 0x80], [0xFF, 0x00]]

/-- The value line 104, 123 or 137 gathers for byte `x` of output row `y` before
it masks with `~src_curr[x]`. -/
def gathered (bm : List (List Nat)) (y x : Nat) : Nat :=
  if y = 0 then
    (shift_line (bm.getD 0 [])).getD x 0 ||| (shift_line (bm.getD 1 [])).getD x 0 |||
      (bm.getD 1 []).getD x 0
  else if y + 1 < bm.length then
    (shift_line (bm.getD (y - 1) [])).getD x 0 ||| (shift_line (bm.getD y [])).getD x 0 |||
      (shift_line (bm.getD (y + 1) [])).getD x 0 ||| (bm.getD (y - 1) []).getD x 0 |||
      (bm.getD (y + 1) []).getD x 0
  else
    (shift_line (bm.getD (y - 1) [])).getD x 0 ||| (shift_line (bm.getD y [])).getD x 0 |||
      (bm.getD (y - 1) []).getD x 0

/-- A storage with arbitrary content for a bitmap of three rows of two bytes. -/
def sample_mem : Mem :=
  { bitmap_outline := [[1, 2], [3, 4], [5, 6]], buf1 := [7, 8], buf2 := [9, 10],
    buf3 := [11, 12] }

/-- Another storage with arbitrary content for a bitmap of three rows of two bytes. -/
def sample_mem_other : Mem :=
  { bitmap_outline := [[0, 0], [0, 0], [0, 0]], buf1 := [0xFF, 0xFF], buf2 := [0xAA, 0x55],
    buf3 := [0, 1] }

/-- A bitmap of three rows of two bytes whose only set pixel is `(1, 7)`, the
last pixel of byte 0 of row 1. -/
def sample_single : List (List Nat) := [[0x00, 0x00], [0x01, 0x00], [0x00, 0x00]]

/-! ## Theorems -/

theorem to_uint8_natCast (n : Nat) : to_uint8 (n : Int) = n % 256 := by
  unfold to_uint8
  omega

theorem read_eq_ok (line : Nat) (p : List Nat) (i : Int) (k : Nat) (hi : i = (k : Int))
    (hk : k < p.length) : read line p i = .ok (p.getD k 0) := by
  subst hi
  simp [read, List.getElem?_eq_getElem hk, List.getD_eq_getElem?_getD]

theorem write_eq_ok (line : Nat) (p : List Nat) (i : Int) (v : Int) (k : Nat) (hi : i = (k : Int))
    (hk : k < p.length) : write line p i v = .ok (p.set k (to_uint8 v)) := by
  subst hi
  simp [write, hk]

theorem vec_at_eq_ok (line : Nat) (bm : List (List Nat)) (y : Nat) (hy : y < bm.length) :
    vec_at line bm y = .ok (bm.getD y []) := by
  simp [vec_at, List.getElem?_eq_getElem hy, List.getD_eq_getElem?_getD]

theorem getD_set_eq (l : List Nat) (i j v : Nat) :
    (l.set i v).getD j 0 = if i = j ∧ i < l.length then v else l.getD j 0 := by
  simp only [List.getD_eq_getElem?_getD, List.getElem?_set]
  by_cases h : i = j
  · subst h
    by_cases h2 : i < l.length
    · simp [h2]
    · simp [h2, List.getElem?_eq_none (Nat.le_of_not_lt h2)]
  · simp [h]

theorem combine_middle_eq (src : List Nat) (n : Nat) : ∀ (i : Nat) (dst : List Nat),
    1 ≤ i → i + n + 1 ≤ src.length → i + n ≤ dst.length →
    ∃ d, combine_middle src n i i dst = .ok (i + n, i + n, d) ∧ d.length = dst.length ∧
      ∀ j, d.getD j 0 = if i ≤ j ∧ j < i + n then shift_byte src j else dst.getD j 0 := by
  induction n with
  | zero =>
    intro i dst _ _ _
    refine ⟨dst, rfl, rfl, fun j => ?_⟩
    have : ¬ (i ≤ j ∧ j < i + 0) := by omega
    rw [if_neg this]
  | succ n ih =>
    intro i dst hi hs hd
    obtain ⟨d, hd1, hd2, hd3⟩ := ih (i + 1)
      (dst.set i (to_uint8 ((shift_byte src i : Nat) : Int))) (by omega) (by omega)
      (by simp; omega)
    refine ⟨d, ?_, ?_, ?_⟩
    · rw [combine_middle]
      rw [read_eq_ok 77 src _ i (by omega) (by omega), read_eq_ok 77 src _ (i + 1) (by omega) (by omega),
        read_eq_ok 78 src _ (i - 1) (by omega) (by omega), read_eq_ok 78 src _ i (by omega) (by omega)]
      simp only [bind, Except.bind, to_uint8_natCast]
      rw [write_eq_ok 79 dst _ _ i rfl (by omega)]
      simp only [shift_byte, hi, if_true, to_uint8_natCast, Nat.mod_mod] at hd1
      simp only [to_uint8_natCast]
      rw [hd1]
      have : i + 1 + n = i + (n + 1) := by omega
      rw [this]
    · simpa using hd2
    · intro j
      rw [hd3 j, getD_set_eq]
      by_cases h1 : i = j
      · subst h1
        have h2 : ¬ (i + 1 ≤ i ∧ i < i + 1 + n) := by omega
        have h3 : i ≤ i ∧ i < i + (n + 1) := by omega
        have h4 : i < dst.length := by omega
        simp only [h2, h3, h4, if_true, if_false, and_self, to_uint8_natCast]
        simp [shift_byte]
      · by_cases h2 : i + 1 ≤ j ∧ j < i + 1 + n
        · have h3 : i ≤ j ∧ j < i + (n + 1) := by omega
          simp [h2, h3]
        · have h3 : ¬ (i ≤ j ∧ j < i + (n + 1)) := by omega
          simp [h2, h3, h1]

theorem or_mod_256 (a b : Nat) : (a ||| b) % 256 = a % 256 ||| b % 256 := by
  apply Nat.eq_of_testBit_eq
  intro i
  have h : (256 : Nat) = 2 ^ 8 := by norm_num
  simp only [h, Nat.testBit_mod_two_pow, Nat.testBit_or]
  cases decide (i < 8) <;> simp

theorem size_t_pred_pos (n : Nat) (h : 1 ≤ n) : size_t_pred n = n - 1 := by
  unfold size_t_pred
  rw [if_neg (by omega)]

theorem getD_of_length_le (l : List Nat) (j : Nat) (h : l.length ≤ j) : l.getD j 0 = 0 := by
  simp [List.getD_eq_getElem?_getD, List.getElem?_eq_none h]

theorem combine_eq (dst src : List Nat) (w : Nat) (hw : 1 ≤ w) (hs : src.length = w)
    (hd : dst.length = w) :
    ∃ d, combine_shift_left_right dst src w = .ok d ∧ d.length = w ∧
      ∀ j, j < w → d.getD j 0 = shift_byte src j := by
  by_cases h1 : w = 1
  · subst h1
    refine ⟨dst.set 0 (to_uint8 (((src.getD 0 0 <<< 1) ||| (src.getD 0 0 >>> 1) : Nat) : Int)),
      ?_, by simpa using hd, ?_⟩
    · rw [combine_shift_left_right, if_pos rfl, read_eq_ok 65 src 0 0 rfl (by omega)]
      simp only [bind, Except.bind]
      rw [write_eq_ok 65 dst 0 _ 0 rfl (by omega)]
    · intro j hj
      have hj0 : j = 0 := by omega
      subst hj0
      rw [getD_set_eq, if_pos ⟨rfl, by omega⟩, to_uint8_natCast]
      rw [shift_byte, getD_of_length_le src 1 (by omega)]
      simp [or_mod_256]
  · have hw2 : 2 ≤ w := by omega
    obtain ⟨d1, hd1, hd2, hd3⟩ := combine_middle_eq src (w - 2) 1
      (dst.set 0 (shift_byte src 0)) (by omega) (by omega) (by simp; omega)
    have e1 : 1 + (w - 2) = w - 1 := by omega
    rw [e1] at hd1 hd3
    simp only [List.length_set] at hd2
    refine ⟨d1.set (w - 1) (shift_byte src (w - 1)), ?_, by simp [hd2, hd], ?_⟩
    · rw [combine_shift_left_right, if_neg h1, read_eq_ok 69 src 0 0 rfl (by omega),
        read_eq_ok 69 src 1 1 rfl (by omega), read_eq_ok 70 src 0 0 rfl (by omega)]
      simp only [bind, Except.bind, to_uint8_natCast]
      rw [write_eq_ok 71 dst 0 _ 0 rfl (by omega)]
      simp only [to_uint8_natCast]
      have e2 : size_t_pred w - 1 = w - 2 := by rw [size_t_pred_pos w hw]; omega
      have e3 : ((src.getD 0 0 <<< 1 ||| src.getD 1 0 >>> (8 - 1)) % 256 |||
          (0 ||| src.getD 0 0 >>> 1) % 256) % 256 = shift_byte src 0 := by
        simp [shift_byte]
      rw [e2, e3, hd1]
      simp only []
      rw [read_eq_ok 83 src _ (w - 1) (by omega) (by omega),
        read_eq_ok 84 src _ (w - 1 - 1) (by omega) (by omega),
        read_eq_ok 84 src _ (w - 1) (by omega) (by omega)]
      simp only [to_uint8_natCast]
      rw [write_eq_ok 85 d1 _ _ (w - 1) rfl (by omega)]
      have e4 : to_uint8 (((src.getD (w - 1) 0 <<< 1 ||| 0) % 256 |||
          (src.getD (w - 1 - 1) 0 <<< (8 - 1) ||| src.getD (w - 1) 0 >>> 1) % 256 : Nat) : Int)
          = shift_byte src (w - 1) := by
        have h5 : 1 ≤ w - 1 := by omega
        have h6 : w - 1 + 1 = w := by omega
        rw [shift_byte, h6, getD_of_length_le src w (by omega), to_uint8_natCast, if_pos h5]
        simp
      rw [e4]
    · intro j hj
      rw [getD_set_eq]
      by_cases h2 : w - 1 = j
      · rw [if_pos ⟨h2, by omega⟩, h2]
      · rw [if_neg (by omega), hd3 j]
        by_cases h3 : 1 ≤ j ∧ j < w - 1
        · rw [if_pos h3]
        · rw [if_neg h3]
          have hj0 : j = 0 := by omega
          subst hj0
          rw [getD_set_eq, if_pos ⟨rfl, by omega⟩]

theorem combine_eq_shift_line (dst src : List Nat) (w : Nat) (hw : 1 ≤ w) (hs : src.length = w)
    (hd : dst.length = w) : combine_shift_left_right dst src w = .ok (shift_line src) := by
  obtain ⟨d, h1, h2, h3⟩ := combine_eq dst src w hw hs hd
  rw [h1]
  congr 1
  apply List.ext_getElem?
  intro j
  by_cases hj : j < w
  · have := h3 j hj
    rw [List.getD_eq_getElem?_getD, List.getElem?_eq_getElem (by omega)] at this
    simp only [Option.getD_some] at this
    rw [List.getElem?_eq_getElem (by omega), this]
    simp [shift_line, hs, hj]
  · rw [List.getElem?_eq_none (by omega), List.getElem?_eq_none (by simp [shift_line]; omega)]

theorem list_eq_map_range (d : List Nat) (w : Nat) (g : Nat → Nat) (hlen : d.length = w)
    (h : ∀ j, j < w → d.getD j 0 = g j) : d = (List.range w).map g := by
  apply List.ext_getElem?
  intro j
  by_cases hj : j < w
  · have := h j hj
    rw [List.getD_eq_getElem?_getD, List.getElem?_eq_getElem (by omega)] at this
    simp only [Option.getD_some] at this
    rw [List.getElem?_eq_getElem (by omega), this]
    simp [hj]
  · rw [List.getElem?_eq_none (by omega), List.getElem?_eq_none (by simp; omega)]

theorem getD_map_range (w : Nat) (g : Nat → Nat) (j : Nat) (hj : j < w) :
    ((List.range w).map g).getD j 0 = g j := by
  simp [List.getD_eq_getElem?_getD, hj]

theorem fill_row_eq (line : Nat) (e : Nat → Run Int) (f : Nat → Int) (n : Nat) :
    ∀ (x : Nat) (dst : List Nat), x + n ≤ dst.length →
    (∀ j, x ≤ j → j < x + n → e j = .ok (f j)) →
    ∃ d, fill_row line e n x dst = .ok d ∧ d.length = dst.length ∧
      ∀ j, d.getD j 0 = if x ≤ j ∧ j < x + n then to_uint8 (f j) else dst.getD j 0 := by
  induction n with
  | zero =>
    intro x dst _ _
    refine ⟨dst, rfl, rfl, fun j => ?_⟩
    have : ¬ (x ≤ j ∧ j < x + 0) := by omega
    rw [if_neg this]
  | succ n ih =>
    intro x dst hd he
    obtain ⟨d, hd1, hd2, hd3⟩ := ih (x + 1) (dst.set x (to_uint8 (f x))) (by simp; omega)
      (fun j h1 h2 => he j (by omega) (by omega))
    refine ⟨d, ?_, by simpa using hd2, ?_⟩
    · rw [fill_row, he x (Nat.le_refl x) (by omega)]
      simp only [bind, Except.bind]
      rw [write_eq_ok line dst _ _ x rfl (by omega)]
      exact hd1
    · intro j
      rw [hd3 j, getD_set_eq]
      by_cases h1 : x = j
      · subst h1
        rw [if_neg (by omega), if_pos ⟨rfl, by omega⟩, if_pos (by omega)]
      · by_cases h2 : x + 1 ≤ j ∧ j < x + 1 + n
        · rw [if_pos h2, if_pos (by omega)]
        · rw [if_neg h2, if_neg (by omega), if_neg (by omega)]

theorem fill_row_all (line : Nat) (e : Nat → Run Int) (f : Nat → Int) (w : Nat) (dst : List Nat)
    (hd : dst.length = w) (he : ∀ j, j < w → e j = .ok (f j)) :
    fill_row line e w 0 dst = .ok ((List.range w).map (fun j => to_uint8 (f j))) := by
  obtain ⟨d, h1, h2, h3⟩ := fill_row_eq line e f w 0 dst (by omega)
    (fun j _ h => he j (by omega))
  rw [h1]
  congr 1
  apply list_eq_map_range d w _ (by omega)
  intro j hj
  rw [h3 j, if_pos (by omega)]

theorem rhs_line0_eq (a b c d : List Nat) (x : Nat) (ha : x < a.length) (hb : x < b.length)
    (hc : x < c.length) (hd : x < d.length) :
    rhs_line0 a b c d x = .ok (int_and ((a.getD x 0 ||| b.getD x 0 ||| c.getD x 0 : Nat) : Int)
      (int_not ((d.getD x 0 : Nat) : Int))) := by
  rw [rhs_line0, read_eq_ok 104 a _ x rfl ha, read_eq_ok 104 b _ x rfl hb,
    read_eq_ok 104 c _ x rfl hc, read_eq_ok 104 d _ x rfl hd]
  rfl

theorem rhs_middle_eq (a b c d e f : List Nat) (x : Nat) (ha : x < a.length) (hb : x < b.length)
    (hc : x < c.length) (hd : x < d.length) (he : x < e.length) (hf : x < f.length) :
    rhs_middle a b c d e f x = .ok (int_and
      ((a.getD x 0 ||| b.getD x 0 ||| c.getD x 0 ||| d.getD x 0 ||| e.getD x 0 : Nat) : Int)
      (int_not ((f.getD x 0 : Nat) : Int))) := by
  rw [rhs_middle, read_eq_ok 123 a _ x rfl ha, read_eq_ok 123 b _ x rfl hb,
    read_eq_ok 123 c _ x rfl hc, read_eq_ok 123 d _ x rfl hd, read_eq_ok 123 e _ x rfl he,
    read_eq_ok 123 f _ x rfl hf]
  rfl

theorem rhs_last_eq (a b c d : List Nat) (x : Nat) (ha : x < a.length) (hb : x < b.length)
    (hc : x < c.length) (hd : x < d.length) :
    rhs_last a b c d x = .ok (int_and ((a.getD x 0 ||| b.getD x 0 ||| c.getD x 0 : Nat) : Int)
      (int_not ((d.getD x 0 : Nat) : Int))) := by
  rw [rhs_last, read_eq_ok 137 a _ x rfl ha, read_eq_ok 137 b _ x rfl hb,
    read_eq_ok 137 c _ x rfl hc, read_eq_ok 137 d _ x rfl hd]
  rfl

theorem line_set_line_same (m : Mem) (p : LineBuf) (v : List Nat) : (m.set_line p v).line p = v := by
  cases p <;> rfl

theorem line_set_line_ne (m : Mem) (p q : LineBuf) (v : List Nat) (h : p ≠ q) :
    (m.set_line p v).line q = m.line q := by
  cases p <;> cases q <;> first | rfl | exact absurd rfl h

theorem bitmap_outline_set_line (m : Mem) (p : LineBuf) (v : List Nat) :
    (m.set_line p v).bitmap_outline = m.bitmap_outline := by
  cases p <;> rfl

theorem length_shift_line (src : List Nat) : (shift_line src).length = src.length := by
  simp [shift_line]

theorem getD_shift_line (src : List Nat) (x : Nat) (hx : x < src.length) :
    (shift_line src).getD x 0 = shift_byte src x := by
  rw [shift_line, getD_map_range _ _ _ hx]

theorem getD_set_gen {α : Type} (l : List α) (i j : Nat) (v d : α) :
    (l.set i v).getD j d = if i = j ∧ i < l.length then v else l.getD j d := by
  simp only [List.getD_eq_getElem?_getD, List.getElem?_set]
  by_cases h : i = j
  · subst h
    by_cases h2 : i < l.length
    · simp [h2]
    · simp [h2, List.getElem?_eq_none (Nat.le_of_not_lt h2)]
  · simp [h]

theorem row_length (bm : List (List Nat)) (w y : Nat) (hrows : ∀ r ∈ bm, r.length = w)
    (hy : y < bm.length) : (bm.getD y []).length = w := by
  apply hrows
  rw [List.getD_eq_getElem?_getD, List.getElem?_eq_getElem hy]
  exact List.getElem_mem hy

theorem length_first_row (bm : List (List Nat)) (w : Nat) : (first_row bm w).length = w := by
  simp [first_row]

theorem length_middle_row (bm : List (List Nat)) (w y : Nat) : (middle_row bm w y).length = w := by
  simp [middle_row]

theorem length_last_row (bm : List (List Nat)) (w y : Nat) : (last_row bm w y).length = w := by
  simp [last_row]

theorem scan_line0_inv (bitmap_in : List (List Nat)) (w : Nat) (m : Mem)
    (hh : 2 ≤ bitmap_in.length) (hw : 1 ≤ w) (hrows : ∀ r ∈ bitmap_in, r.length = w)
    (hol : m.bitmap_outline.length = bitmap_in.length)
    (hor : ∀ r ∈ m.bitmap_outline, r.length = w)
    (h2 : m.buf2.length = w) (h3 : m.buf3.length = w) (h1 : m.buf1.length = w) :
    ∃ s, scan_line0 bitmap_in w m = .ok s ∧ ScanInv bitmap_in w 1 s := by
  have hr0 := row_length bitmap_in w 0 hrows (by omega)
  have hr1 := row_length bitmap_in w 1 hrows (by omega)
  have ho0 := row_length m.bitmap_outline w 0 hor (by omega)
  have e : scan_line0 bitmap_in w m = .ok
      { mem := { bitmap_outline := m.bitmap_outline.set 0 (first_row bitmap_in w),
                 buf1 := m.buf1,
                 buf2 := shift_line (bitmap_in.getD 0 []),
                 buf3 := shift_line (bitmap_in.getD 1 []) },
        prev_line_LR := .buf2, curr_line_LR := .buf3, next_line_LR := .buf1,
        src_prev := 0, src_curr := 1, y := 1 } := by
    rw [scan_line0]
    simp only [bind, Except.bind, pure, Except.pure]
    rw [vec_at_eq_ok 98 _ 0 (by omega), vec_at_eq_ok 99 _ 0 (by omega)]
    simp only [Nat.zero_add]
    rw [vec_at_eq_ok 100 _ 1 (by omega)]
    simp only [Mem.line, Mem.set_line]
    rw [combine_eq_shift_line _ _ w hw hr0 h2]
    simp only []
    rw [combine_eq_shift_line _ _ w hw hr1 h3]
    simp only []
    rw [fill_row_all 104 _ (fun x => int_and
      (((shift_line (bitmap_in.getD 0 [])).getD x 0 ||| (shift_line (bitmap_in.getD 1 [])).getD x 0 |||
        (bitmap_in.getD 1 []).getD x 0 : Nat) : Int)
      (int_not (((bitmap_in.getD 0 []).getD x 0 : Nat) : Int))) w _ ho0]
    · rfl
    · intro j hj
      rw [rhs_line0_eq _ _ _ _ j (by rw [length_shift_line]; omega)
        (by rw [length_shift_line]; omega) (by omega) (by omega)]
  refine ⟨_, e, ?_⟩
  constructor
  · rfl
  · rfl
  · rfl
  · simp
  · simp
  · simp
  · rfl
  · rfl
  · exact h1
  · simpa using hol
  · intro y hy
    show ((m.bitmap_outline.set 0 (first_row bitmap_in w)).getD y []).length = w
    rw [getD_set_gen]
    split
    · exact length_first_row _ _
    · exact row_length _ w y hor (by omega)
  · show (m.bitmap_outline.set 0 (first_row bitmap_in w)).getD 0 [] = _
    rw [getD_set_gen, if_pos ⟨rfl, by omega⟩]
  · intro y hy1 hy2
    omega

theorem scan_middle_inv (bitmap_in : List (List Nat)) (w k : Nat) (s : Scan)
    (hw : 1 ≤ w) (hrows : ∀ r ∈ bitmap_in, r.length = w)
    (hk1 : 1 ≤ k) (hk : k + 1 < bitmap_in.length) (inv : ScanInv bitmap_in w k s) :
    ∃ s1, scan_middle bitmap_in w s = .ok s1 ∧ ScanInv bitmap_in w (k + 1) s1 := by
  obtain ⟨hy, hp, hc, n1, n2, n3, pl, cl, nl, ol, orows, ofirst, omid⟩ := inv
  have hsp : s.src_prev = k - 1 := by omega
  have hrp := row_length bitmap_in w (k - 1) hrows (by omega)
  have hrc := row_length bitmap_in w k hrows (by omega)
  have hrn := row_length bitmap_in w (k + 1) hrows (by omega)
  have e : scan_middle bitmap_in w s = .ok
      { mem := { (s.mem.set_line s.next_line_LR (shift_line (bitmap_in.getD (k + 1) []))) with
                 bitmap_outline := s.mem.bitmap_outline.set k (middle_row bitmap_in w k) },
        prev_line_LR := s.curr_line_LR, curr_line_LR := s.next_line_LR,
        next_line_LR := s.prev_line_LR, src_prev := k, src_curr := k + 1, y := k + 1 } := by
    rw [scan_middle]
    simp only [bind, Except.bind, pure, Except.pure, hy, hsp, hc]
    rw [vec_at_eq_ok 119 _ k (by omega), vec_at_eq_ok 120 _ (k + 1) (by omega)]
    simp only []
    rw [combine_eq_shift_line _ _ w hw hrn nl]
    simp only []
    rw [vec_at_eq_ok 123 _ (k - 1) (by omega), vec_at_eq_ok 123 _ k (by omega)]
    simp only [line_set_line_same, line_set_line_ne _ _ _ _ (Ne.symm n3),
      line_set_line_ne _ _ _ _ (Ne.symm n2), pl, cl, bitmap_outline_set_line]
    rw [fill_row_all 123 _ (fun x => int_and
      (((shift_line (bitmap_in.getD (k - 1) [])).getD x 0 |||
        (shift_line (bitmap_in.getD k [])).getD x 0 |||
        (shift_line (bitmap_in.getD (k + 1) [])).getD x 0 ||| (bitmap_in.getD (k - 1) []).getD x 0 |||
        (bitmap_in.getD (k + 1) []).getD x 0 : Nat) : Int)
      (int_not (((bitmap_in.getD k []).getD x 0 : Nat) : Int))) w _ (orows k (by omega))]
    · rfl
    · intro j hj
      rw [rhs_middle_eq _ _ _ _ _ _ j (by rw [length_shift_line]; omega)
        (by rw [length_shift_line]; omega) (by rw [length_shift_line]; omega)
        (by omega) (by omega) (by omega)]
  refine ⟨_, e, ?_⟩
  constructor
  · rfl
  · rfl
  · rfl
  · exact n2
  · exact Ne.symm n3
  · exact Ne.symm n1
  · show Mem.line _ s.curr_line_LR = _
    have : k + 1 - 1 = k := by omega
    rw [this, ← cl]
    cases hcase : s.curr_line_LR <;> cases hcase2 : s.next_line_LR <;>
      first | rfl | (rw [hcase, hcase2] at n2; exact absurd rfl n2)
  · show Mem.line _ s.next_line_LR = _
    cases hcase2 : s.next_line_LR <;> rfl
  · show (Mem.line _ s.prev_line_LR).length = w
    have h : Mem.line { (s.mem.set_line s.next_line_LR (shift_line (bitmap_in.getD (k + 1) []))) with
        bitmap_outline := s.mem.bitmap_outline.set k (middle_row bitmap_in w k) } s.prev_line_LR
        = s.mem.line s.prev_line_LR := by
      cases hcase : s.prev_line_LR <;> cases hcase2 : s.next_line_LR <;>
        first | rfl | (rw [hcase, hcase2] at n3; exact absurd rfl n3)
    rw [h, pl, length_shift_line]
    exact hrp
  · show (s.mem.bitmap_outline.set k (middle_row bitmap_in w k)).length = _
    simpa using ol
  · intro y hy2
    show ((s.mem.bitmap_outline.set k (middle_row bitmap_in w k)).getD y []).length = w
    rw [getD_set_gen]
    split
    · exact length_middle_row _ _ _
    · exact orows y hy2
  · show (s.mem.bitmap_outline.set k (middle_row bitmap_in w k)).getD 0 [] = _
    rw [getD_set_gen, if_neg (by omega)]
    exact ofirst
  · intro y hy1 hy2
    show (s.mem.bitmap_outline.set k (middle_row bitmap_in w k)).getD y [] = _
    rw [getD_set_gen]
    by_cases hyk : k = y
    · rw [if_pos ⟨hyk, by omega⟩, hyk]
    · rw [if_neg (by omega)]
      exact omid y hy1 (by omega)

theorem scan_middle_lines_inv (bitmap_in : List (List Nat)) (w : Nat)
    (hw : 1 ≤ w) (hrows : ∀ r ∈ bitmap_in, r.length = w) (n : Nat) :
    ∀ (k : Nat) (s : Scan), 1 ≤ k → k + n + 1 = bitmap_in.length → ScanInv bitmap_in w k s →
    ∃ s1, scan_middle_lines bitmap_in w n s = .ok s1 ∧ ScanInv bitmap_in w (k + n) s1 := by
  induction n with
  | zero =>
    intro k s _ _ inv
    exact ⟨s, rfl, inv⟩
  | succ n ih =>
    intro k s hk1 hk inv
    obtain ⟨s1, e1, inv1⟩ := scan_middle_inv bitmap_in w k s hw hrows hk1 (by omega) inv
    obtain ⟨s2, e2, inv2⟩ := ih (k + 1) s1 (by omega) (by omega) inv1
    refine ⟨s2, ?_, ?_⟩
    · rw [scan_middle_lines, e1]
      exact e2
    · have : k + (n + 1) = k + 1 + n := by omega
      rw [this]
      exact inv2

theorem scan_last_eq (bitmap_in : List (List Nat)) (w k : Nat) (s : Scan)
    (hrows : ∀ r ∈ bitmap_in, r.length = w)
    (hk1 : 1 ≤ k) (hk : k + 1 = bitmap_in.length) (inv : ScanInv bitmap_in w k s) :
    ∃ m, scan_last bitmap_in w s = .ok m ∧
      m.bitmap_outline = s.mem.bitmap_outline.set k (last_row bitmap_in w k) := by
  obtain ⟨hy, hp, hc, n1, n2, n3, pl, cl, nl, ol, orows, ofirst, omid⟩ := inv
  have hsp : s.src_prev = k - 1 := by omega
  have hrp := row_length bitmap_in w (k - 1) hrows (by omega)
  have hrc := row_length bitmap_in w k hrows (by omega)
  refine ⟨{ s.mem with bitmap_outline := s.mem.bitmap_outline.set k (last_row bitmap_in w k) }, ?_, rfl⟩
  rw [scan_last]
  simp only [bind, Except.bind, pure, Except.pure, hy, hsp, hc]
  rw [vec_at_eq_ok 135 _ k (by omega), vec_at_eq_ok 137 _ (k - 1) (by omega)]
  simp only []
  rw [vec_at_eq_ok 137 _ k (by omega)]
  simp only [pl, cl]
  rw [fill_row_all 137 _ (fun x => int_and
    (((shift_line (bitmap_in.getD (k - 1) [])).getD x 0 |||
      (shift_line (bitmap_in.getD k [])).getD x 0 ||| (bitmap_in.getD (k - 1) []).getD x 0 : Nat) : Int)
    (int_not (((bitmap_in.getD k []).getD x 0 : Nat) : Int))) w _ (orows k (by omega))]
  · rfl
  · intro j hj
    rw [rhs_last_eq _ _ _ _ j (by rw [length_shift_line]; omega)
      (by rw [length_shift_line]; omega) (by omega) (by omega)]

theorem rows_eq_map_range (d : List (List Nat)) (n : Nat) (g : Nat → List Nat) (hlen : d.length = n)
    (h : ∀ j, j < n → d.getD j [] = g j) : d = (List.range n).map g := by
  apply List.ext_getElem?
  intro j
  by_cases hj : j < n
  · have := h j hj
    rw [List.getD_eq_getElem?_getD, List.getElem?_eq_getElem (by omega)] at this
    simp only [Option.getD_some] at this
    rw [List.getElem?_eq_getElem (by omega), this]
    simp [hj]
  · rw [List.getElem?_eq_none (by omega), List.getElem?_eq_none (by simp; omega)]

theorem row_scan_eq (bitmap_in : List (List Nat)) (w : Nat) (m : Mem)
    (hh : 2 ≤ bitmap_in.length) (hw : 1 ≤ w) (hrows : ∀ r ∈ bitmap_in, r.length = w)
    (hol : m.bitmap_outline.length = bitmap_in.length)
    (hor : ∀ r ∈ m.bitmap_outline, r.length = w)
    (h1 : m.buf1.length = w) (h2 : m.buf2.length = w) (h3 : m.buf3.length = w) :
    ∃ m1, row_scan bitmap_in bitmap_in.length w m = .ok m1 ∧
      m1.bitmap_outline = outline_rows bitmap_in w := by
  obtain ⟨s0, e0, inv0⟩ := scan_line0_inv bitmap_in w m hh hw hrows hol hor h2 h3 h1
  obtain ⟨s1, e1, inv1⟩ := scan_middle_lines_inv bitmap_in w hw hrows (bitmap_in.length - 2) 1 s0
    (by omega) (by omega) inv0
  have hk : 1 + (bitmap_in.length - 2) = bitmap_in.length - 1 := by omega
  rw [hk] at inv1
  obtain ⟨m1, e2, hm1⟩ := scan_last_eq bitmap_in w (bitmap_in.length - 1) s1 hrows (by omega)
    (by omega) inv1
  refine ⟨m1, ?_, ?_⟩
  · rw [row_scan, e0]
    simp only [bind, Except.bind]
    have hc : size_t_pred bitmap_in.length - s0.y = bitmap_in.length - 2 := by
      rw [size_t_pred_pos _ (by omega), inv0.y_eq]
      omega
    rw [hc, e1]
    exact e2
  · rw [hm1]
    apply rows_eq_map_range _ _ _ (by simpa using inv1.out_len)
    intro y hy
    rw [getD_set_gen]
    by_cases hy0 : y = 0
    · subst hy0
      rw [if_neg (by omega), if_pos rfl]
      exact inv1.out_first
    · by_cases hy1 : y + 1 < bitmap_in.length
      · rw [if_neg (by omega), if_neg hy0, if_pos hy1]
        exact inv1.out_mid y (by omega) (by omega)
      · have hy2 : bitmap_in.length - 1 = y := by omega
        rw [if_pos ⟨hy2, by rw [inv1.out_len]; omega⟩, if_neg hy0, if_neg hy1, hy2]

theorem outline_eq (bitmap_in bitmap_outline : List (List Nat)) (w : Nat)
    (hh : 2 ≤ bitmap_in.length) (hw : 1 ≤ w) (hrows : ∀ r ∈ bitmap_in, r.length = w)
    (hol : bitmap_outline.length = bitmap_in.length)
    (hor : ∀ r ∈ bitmap_outline, r.length = w) :
    outline bitmap_in bitmap_outline = .ok (outline_rows bitmap_in w) := by
  have hr0 := row_length bitmap_in w 0 hrows (by omega)
  obtain ⟨m1, e1, hm1⟩ := row_scan_eq bitmap_in w
    { bitmap_outline := bitmap_outline, buf1 := List.replicate w 0, buf2 := List.replicate w 0,
      buf3 := List.replicate w 0 } hh hw hrows hol hor (by simp) (by simp) (by simp)
  rw [outline]
  simp only [bind, Except.bind, pure, Except.pure]
  rw [vec_at_eq_ok 54 _ 0 (by omega)]
  simp only [hr0]
  rw [e1]
  simp only [hm1]

theorem getElem?_outline_rows (bm : List (List Nat)) (w y : Nat) (hy : y < bm.length) :
    (outline_rows bm w)[y]? = some (if y = 0 then first_row bm w
      else if y + 1 < bm.length then middle_row bm w y else last_row bm w y) := by
  simp [outline_rows, hy]

theorem getElem?_map_range (w : Nat) (g : Nat → Nat) (x : Nat) (hx : x < w) :
    ((List.range w).map g)[x]? = some (g x) := by
  simp [hx]

/-- C4: for every input bitmap with at least two rows of `w ≥ 1` bytes and
every `x < w`, byte `x` of output row 0 is
`(S(0)[x] | S(1)[x] | R(1)[x]) & ~R(0)[x]` converted to `uint8_t`, where `S(k)`
is what `combine_shift_left_right` produces from input row `k`. -/
theorem first_row_formula (bitmap_in bitmap_outline : List (List Nat)) (w : Nat)
    (hh : 2 ≤ bitmap_in.length) (hw : 1 ≤ w) (hrows : ∀ r ∈ bitmap_in, r.length = w)
    (hol : bitmap_outline.length = bitmap_in.length)
    (hor : ∀ r ∈ bitmap_outline, r.length = w) :
    ∃ (out : List (List Nat)) (S : Nat → List Nat),
      outline bitmap_in bitmap_outline = .ok out ∧
      (∀ k dst, k < bitmap_in.length → dst.length = w →
        combine_shift_left_right dst (bitmap_in.getD k []) w = .ok (S k)) ∧
      ∀ x, x < w → ∃ row, out[0]? = some row ∧ row[x]? = some (to_uint8 (int_and
        (((S 0).getD x 0 ||| (S 1).getD x 0 ||| (bitmap_in.getD 1 []).getD x 0 : Nat) : Int)
        (int_not (((bitmap_in.getD 0 []).getD x 0 : Nat) : Int)))) := by
  refine ⟨outline_rows bitmap_in w, fun k => shift_line (bitmap_in.getD k []),
    outline_eq bitmap_in bitmap_outline w hh hw hrows hol hor, ?_, ?_⟩
  · intro k dst hk hd
    exact combine_eq_shift_line dst _ w hw (row_length bitmap_in w k hrows hk) hd
  · intro x hx
    refine ⟨first_row bitmap_in w, ?_, ?_⟩
    · rw [getElem?_outline_rows _ _ _ (by omega), if_pos rfl]
    · rw [first_row, getElem?_map_range _ _ _ hx]

/-- C3: for every input bitmap with at least three rows of `w ≥ 1` bytes,
every interior row `0 < y < height - 1` and every `x < w`, byte `x` of output
row `y` is `(S(y-1)[x] | S(y)[x] | S(y+1)[x] | R(y-1)[x] | R(y+1)[x]) & ~R(y)[x]`
converted to `uint8_t`, where `S(k)` is what `combine_shift_left_right`
produces from input row `k`. -/
theorem interior_row_formula (bitmap_in bitmap_outline : List (List Nat)) (w : Nat)
    (hh : 3 ≤ bitmap_in.length) (hw : 1 ≤ w) (hrows : ∀ r ∈ bitmap_in, r.length = w)
    (hol : bitmap_outline.length = bitmap_in.length)
    (hor : ∀ r ∈ bitmap_outline, r.length = w) :
    ∃ (out : List (List Nat)) (S : Nat → List Nat),
      outline bitmap_in bitmap_outline = .ok out ∧
      (∀ k dst, k < bitmap_in.length → dst.length = w →
        combine_shift_left_right dst (bitmap_in.getD k []) w = .ok (S k)) ∧
      ∀ y x, 0 < y → y < bitmap_in.length - 1 → x < w →
        ∃ row, out[y]? = some row ∧ row[x]? = some (to_uint8 (int_and
          (((S (y - 1)).getD x 0 ||| (S y).getD x 0 ||| (S (y + 1)).getD x 0 |||
            (bitmap_in.getD (y - 1) []).getD x 0 ||| (bitmap_in.getD (y + 1) []).getD x 0 : Nat) : Int)
          (int_not (((bitmap_in.getD y []).getD x 0 : Nat) : Int)))) := by
  refine ⟨outline_rows bitmap_in w, fun k => shift_line (bitmap_in.getD k []),
    outline_eq bitmap_in bitmap_outline w (by omega) hw hrows hol hor, ?_, ?_⟩
  · intro k dst hk hd
    exact combine_eq_shift_line dst _ w hw (row_length bitmap_in w k hrows hk) hd
  · intro y x hy0 hy1 hx
    refine ⟨middle_row bitmap_in w y, ?_, ?_⟩
    · rw [getElem?_outline_rows _ _ _ (by omega), if_neg (by omega), if_pos (by omega)]
    · rw [middle_row, getElem?_map_range _ _ _ hx]

/-- C5: for every input bitmap with `h ≥ 2` rows of `w ≥ 1` bytes and every
`x < w`, byte `x` of the last output row is
`(S(h-2)[x] | S(h-1)[x] | R(h-2)[x]) & ~R(h-1)[x]` converted to `uint8_t`, where
`S(k)` is what `combine_shift_left_right` produces from input row `k`. -/
theorem last_row_formula (bitmap_in bitmap_outline : List (List Nat)) (w : Nat)
    (hh : 2 ≤ bitmap_in.length) (hw : 1 ≤ w) (hrows : ∀ r ∈ bitmap_in, r.length = w)
    (hol : bitmap_outline.length = bitmap_in.length)
    (hor : ∀ r ∈ bitmap_outline, r.length = w) :
    ∃ (out : List (List Nat)) (S : Nat → List Nat),
      outline bitmap_in bitmap_outline = .ok out ∧
      (∀ k dst, k < bitmap_in.length → dst.length = w →
        combine_shift_left_right dst (bitmap_in.getD k []) w = .ok (S k)) ∧
      ∀ x, x < w → ∃ row, out[bitmap_in.length - 1]? = some row ∧
        row[x]? = some (to_uint8 (int_and
          (((S (bitmap_in.length - 2)).getD x 0 ||| (S (bitmap_in.length - 1)).getD x 0 |||
            (bitmap_in.getD (bitmap_in.length - 2) []).getD x 0 : Nat) : Int)
          (int_not (((bitmap_in.getD (bitmap_in.length - 1) []).getD x 0 : Nat) : Int)))) := by
  refine ⟨outline_rows bitmap_in w, fun k => shift_line (bitmap_in.getD k []),
    outline_eq bitmap_in bitmap_outline w hh hw hrows hol hor, ?_, ?_⟩
  · intro k dst hk hd
    exact combine_eq_shift_line dst _ w hw (row_length bitmap_in w k hrows hk) hd
  · intro x hx
    refine ⟨last_row bitmap_in w (bitmap_in.length - 1), ?_, ?_⟩
    · rw [getElem?_outline_rows _ _ _ (by omega), if_neg (by omega), if_neg (by omega)]
    · have e : bitmap_in.length - 1 - 1 = bitmap_in.length - 2 := by omega
      rw [last_row, getElem?_map_range _ _ _ hx, e]

theorem first_row_formula_witness :
    ∃ (out : List (List Nat)) (S : Nat → List Nat),
      outline [[0x00, 0x01], [0x70, 0x80]] [[0, 0], [0, 0]] = .ok out ∧
      (∀ k dst, k < 2 → dst.length = 2 →
        combine_shift_left_right dst (([[0x00, 0x01], [0x70, 0x80]] : List (List Nat)).getD k []) 2
          = .ok (S k)) ∧
      ∀ x, x < 2 → ∃ row, out[0]? = some row ∧ row[x]? = some (to_uint8 (int_and
        (((S 0).getD x 0 ||| (S 1).getD x 0 |||
          ((([[0x00, 0x01], [0x70, 0x80]] : List (List Nat))).getD 1 []).getD x 0 : Nat) : Int)
        (int_not ((((([[0x00, 0x01], [0x70, 0x80]] : List (List Nat))).getD 0 []).getD x 0 : Nat) : Int)))) :=
  first_row_formula [[0x00, 0x01], [0x70, 0x80]] [[0, 0], [0, 0]] 2 (by decide) (by decide)
    (by decide) (by decide) (by decide)

theorem getD_lt_256 (src : List Nat) (hb : ∀ b ∈ src, b < 256) (j : Nat) : src.getD j 0 < 256 := by
  by_cases hj : j < src.length
  · rw [List.getD_eq_getElem?_getD, List.getElem?_eq_getElem hj]
    exact hb _ (List.getElem_mem hj)
  · rw [getD_of_length_le src j (by omega)]
    omega

theorem shift_byte_eq (src : List Nat) (w i : Nat) (hs : src.length = w)
    (hb : ∀ b ∈ src, b < 256) :
    shift_byte src i = ((src.getD i 0 <<< 1) % 256) ||| (src.getD i 0 >>> 1) |||
      (if i + 1 < w then src.getD (i + 1) 0 >>> 7 else 0) |||
      (if 1 ≤ i then (src.getD (i - 1) 0 <<< 7) % 256 else 0) := by
  have ha := getD_lt_256 src hb i
  have hb1 := getD_lt_256 src hb (i + 1)
  have e1 : (src.getD i 0 >>> 1) % 256 = src.getD i 0 >>> 1 := by
    rw [Nat.shiftRight_eq_div_pow]; omega
  have e2 : (src.getD (i + 1) 0 >>> 7) % 256 = src.getD (i + 1) 0 >>> 7 := by
    rw [Nat.shiftRight_eq_div_pow]; omega
  have e3 : (if i + 1 < w then src.getD (i + 1) 0 >>> 7 else 0) = src.getD (i + 1) 0 >>> 7 := by
    split
    · rfl
    · rw [getD_of_length_le src (i + 1) (by omega)]; rfl
  have e4 : (if 1 ≤ i then src.getD (i - 1) 0 <<< 7 else 0) % 256 =
      (if 1 ≤ i then (src.getD (i - 1) 0 <<< 7) % 256 else 0) := by
    split <;> rfl
  rw [shift_byte, or_mod_256, Nat.mod_mod, Nat.mod_mod, or_mod_256, or_mod_256, e1, e2, e3, e4]
  ac_rfl

/-- C6: for every row `src` of `w ≥ 2` bytes, `combine_shift_left_right` fills a
destination line of `w` bytes with
`dst[i] = ((src[i] << 1) mod 256) | (src[i] >> 1) | c_next | c_prev`, where
`c_next = src[i+1] >> 7` if `i + 1 < w` and `0` otherwise, and
`c_prev = (src[i-1] << 7) mod 256` if `i ≥ 1` and `0` otherwise. -/
theorem combine_multi_byte (dst src : List Nat) (w : Nat) (hw : 2 ≤ w) (hs : src.length = w)
    (hd : dst.length = w) (hb : ∀ b ∈ src, b < 256) :
    ∃ d, combine_shift_left_right dst src w = .ok d ∧ d.length = w ∧
      ∀ i, i < w → d[i]? = some (((src.getD i 0 <<< 1) % 256) ||| (src.getD i 0 >>> 1) |||
        (if i + 1 < w then src.getD (i + 1) 0 >>> 7 else 0) |||
        (if 1 ≤ i then (src.getD (i - 1) 0 <<< 7) % 256 else 0)) := by
  refine ⟨shift_line src, combine_eq_shift_line dst src w (by omega) hs hd,
    by rw [length_shift_line, hs], ?_⟩
  intro i hi
  rw [shift_line, getElem?_map_range _ _ _ (by omega), shift_byte_eq src w i hs hb]

theorem combine_multi_byte_witness :
    ∃ d, combine_shift_left_right [0, 0, 0] [0x81, 0x01, 0x80] 3 = .ok d ∧ d.length = 3 ∧
      ∀ i, i < 3 → d[i]? = some (((([0x81, 0x01, 0x80] : List Nat).getD i 0 <<< 1) % 256) |||
        (([0x81, 0x01, 0x80] : List Nat).getD i 0 >>> 1) |||
        (if i + 1 < 3 then ([0x81, 0x01, 0x80] : List Nat).getD (i + 1) 0 >>> 7 else 0) |||
        (if 1 ≤ i then (([0x81, 0x01, 0x80] : List Nat).getD (i - 1) 0 <<< 7) % 256 else 0)) :=
  combine_multi_byte [0, 0, 0] [0x81, 0x01, 0x80] 3 (by decide) (by decide) (by decide)
    (by decide)

theorem testBit_of_lt_256 (a : Nat) (h : a < 256) (i : Nat) (hi : 8 ≤ i) : a.testBit i = false := by
  apply Nat.testBit_lt_two_pow
  calc a < 2 ^ 8 := h
    _ ≤ 2 ^ i := Nat.pow_le_pow_right (by norm_num) hi

/-- C7: for every byte `b`, `combine_shift_left_right` turns the one-byte row
`[b]` into the one-byte row `[((b << 1) | (b >> 1)) mod 256]`, whatever the
destination held; bit `k` of the result is bit `k - 1` of `b` (for `k ≥ 1`) or
bit `k + 1` of `b` (for `k < 7`), so bit 7 and bit 0 of `b` do not wrap around;
`0x80` gives `0x40`, `0x01` gives `0x02`, `0x70` gives `0xF8`. -/
theorem combine_single_byte (b d0 : Nat) (hb : b < 256) :
    combine_shift_left_right [d0] [b] 1 = .ok [((b <<< 1) ||| (b >>> 1)) % 256] ∧
    (∀ k, k < 8 → (((b <<< 1) ||| (b >>> 1)) % 256).testBit k =
      ((decide (1 ≤ k) && b.testBit (k - 1)) || (decide (k < 7) && b.testBit (k + 1)))) ∧
    combine_shift_left_right [d0] [0x80] 1 = .ok [0x40] ∧
    combine_shift_left_right [d0] [0x01] 1 = .ok [0x02] ∧
    combine_shift_left_right [d0] [0x70] 1 = .ok [0xF8] := by
  refine ⟨by simp [combine_shift_left_right, read, write, bind, Except.bind, to_uint8_natCast],
    ?_, rfl, rfl, rfl⟩
  intro k hk
  have h : (256 : Nat) = 2 ^ 8 := by norm_num
  rw [h, Nat.testBit_mod_two_pow, Nat.testBit_or, Nat.testBit_shiftLeft, Nat.testBit_shiftRight]
  by_cases h7 : k < 7
  · have e : 1 + k = k + 1 := by omega
    simp [hk, h7, e]
  · have e : 1 + k = 8 := by omega
    simp [hk, h7, e, testBit_of_lt_256 b hb 8 (Nat.le_refl 8)]

theorem combine_single_byte_witness :
    combine_shift_left_right [0] [0x81] 1 = .ok [((0x81 <<< 1) ||| (0x81 >>> 1)) % 256] ∧
    (∀ k, k < 8 → (((0x81 <<< 1) ||| (0x81 >>> 1)) % 256).testBit k =
      ((decide (1 ≤ k) && (0x81 : Nat).testBit (k - 1)) ||
        (decide (k < 7) && (0x81 : Nat).testBit (k + 1)))) ∧
    combine_shift_left_right [0] [0x80] 1 = .ok [0x40] ∧
    combine_shift_left_right [0] [0x01] 1 = .ok [0x02] ∧
    combine_shift_left_right [0] [0x70] 1 = .ok [0xF8] :=
  combine_single_byte 0x81 0 (by decide)

theorem getD_replicate_zero (w x : Nat) : (List.replicate w 0).getD x 0 = 0 := by
  by_cases hx : x < w
  · simp [List.getD_eq_getElem?_getD, hx]
  · exact getD_of_length_le _ _ (by simp; omega)

theorem test_bitmap_eq (w : Nat) : test_bitmap w =
    [List.replicate w 0, (List.replicate w 0).set 0 0x70, List.replicate w 0] := rfl

theorem test_bitmap_getD (w : Nat) (hw : 1 ≤ w) (y x : Nat) :
    ((test_bitmap w).getD y []).getD x 0 = if y = 1 ∧ x = 0 then 0x70 else 0 := by
  rw [test_bitmap_eq]
  match y with
  | 0 => simp [getD_replicate_zero]
  | 1 =>
    simp only [List.getD_cons_succ, List.getD_cons_zero]
    rw [getD_set_eq, getD_replicate_zero]
    by_cases hx : x = 0
    · subst hx
      simp; omega
    · have : ¬ (0 = x ∧ 0 < (List.replicate w 0).length) := by omega
      rw [if_neg this, if_neg (by omega)]
  | 2 => simp [getD_replicate_zero]
  | n + 3 => simp

theorem test_bitmap_rows (w : Nat) : ∀ r ∈ test_bitmap w, r.length = w := by
  intro r hr
  rw [test_bitmap_eq] at hr
  simp at hr
  rcases hr with h | h | h <;> simp [h]

theorem shift_byte_test_bitmap (w : Nat) (hw : 1 ≤ w) (y x : Nat) :
    shift_byte ((test_bitmap w).getD y []) x = if y = 1 ∧ x = 0 then 0xF8 else 0 := by
  rw [shift_byte, test_bitmap_getD w hw, test_bitmap_getD w hw, test_bitmap_getD w hw]
  by_cases hy : y = 1
  · by_cases hx : x = 0
    · subst hx; subst hy; decide
    · by_cases hx1 : x = 1
      · subst hx1; subst hy; decide
      · have h1 : ¬ (y = 1 ∧ x = 0) := by omega
        have h2 : ¬ (y = 1 ∧ x + 1 = 0) := by omega
        have h3 : ¬ (y = 1 ∧ x - 1 = 0) := by omega
        simp only [h1, h2, h3, if_false]
        simp
  · have h1 : ¬ (y = 1 ∧ x = 0) := by omega
    have h2 : ¬ (y = 1 ∧ x + 1 = 0) := by omega
    have h3 : ¬ (y = 1 ∧ x - 1 = 0) := by omega
    simp only [h1, h2, h3, if_false]
    simp

theorem outline_rows_test_bitmap (w : Nat) (hw : 1 ≤ w) (y x : Nat) (hy : y < 3) (hx : x < w) :
    ∃ row, (outline_rows (test_bitmap w) w)[y]? = some row ∧
      row[x]? = some (if x = 0 then (if y = 1 then 0x88 else 0xF8) else 0) := by
  have hlen : (test_bitmap w).length = 3 := rfl
  have hr := fun k (hk : k < 3) => row_length (test_bitmap w) w k (test_bitmap_rows w) (by omega)
  have hS := fun k (hk : k < 3) => getD_shift_line ((test_bitmap w).getD k []) x
    (by rw [hr k hk]; exact hx)
  refine ⟨_, getElem?_outline_rows _ w y (by omega), ?_⟩
  match y, hy with
  | 0, _ =>
    rw [if_pos rfl, first_row, getElem?_map_range _ _ _ hx, hS 0 (by omega), hS 1 (by omega),
      shift_byte_test_bitmap w hw, shift_byte_test_bitmap w hw, test_bitmap_getD w hw,
      test_bitmap_getD w hw]
    by_cases hx0 : x = 0
    · subst hx0; rfl
    · simp only [hx0, and_false, if_false]; rfl
  | 1, _ =>
    rw [if_neg (by omega), if_pos (by omega), middle_row, getElem?_map_range _ _ _ hx,
      hS 0 (by omega), hS 1 (by omega), hS 2 (by omega),
      shift_byte_test_bitmap w hw, shift_byte_test_bitmap w hw, shift_byte_test_bitmap w hw,
      test_bitmap_getD w hw, test_bitmap_getD w hw, test_bitmap_getD w hw]
    by_cases hx0 : x = 0
    · subst hx0; rfl
    · simp only [hx0, and_false, if_false]; rfl
  | 2, _ =>
    rw [if_neg (by omega), if_neg (by omega), last_row, getElem?_map_range _ _ _ hx,
      hS 1 (by omega), hS 2 (by omega),
      shift_byte_test_bitmap w hw, shift_byte_test_bitmap w hw,
      test_bitmap_getD w hw, test_bitmap_getD w hw]
    by_cases hx0 : x = 0
    · subst hx0; rfl
    · simp only [hx0, and_false, if_false]; rfl

theorem bad_codegen_test_eq (ws : Bool) (w : Nat) (hw : 1 ≤ w) :
    bad_codegen_test ws w = .ok (outline_rows (test_bitmap w) w,
      "Byte width = " ++ toString w ++ ", " ++
      (if ws then " With workaround, " else " No workaround, ") ++ " Result is " ++ "good" ++ "\n") := by
  obtain ⟨row, h1, h2⟩ := outline_rows_test_bitmap w hw 1 0 (by omega) (by omega)
  have e1 : vec_at 48 (List.replicate 3 (List.replicate w 0)) 1 = .ok (List.replicate w 0) := rfl
  have e2 : write 48 (List.replicate w 0) 0 0x70 = .ok ((List.replicate w 0).set 0 0x70) := by
    rw [write_eq_ok 48 _ 0 _ 0 rfl (by simp; omega)]
    rfl
  have e3 : outline (test_bitmap w) (List.replicate 3 (List.replicate w 0)) =
      .ok (outline_rows (test_bitmap w) w) :=
    outline_eq _ _ w (by rw [test_bitmap_eq]; simp) hw (test_bitmap_rows w) rfl (by simp)
  have e4 : vec_at 149 (outline_rows (test_bitmap w) w) 1 = .ok row := by
    rw [vec_at, h1]
  have e5 : read 149 row 0 = .ok 0x88 := by
    have : row[(0 : Int).toNat]? = some 0x88 := h2
    rw [read, if_pos (by omega), this]
  rw [bad_codegen_test]
  simp only [bind, Except.bind, pure, Except.pure]
  rw [e1]
  simp only []
  rw [e2]
  simp only []
  rw [← test_bitmap, e3]
  simp only []
  rw [e4]
  simp only []
  rw [e5]
  rfl

/-- C1: for every `width_in_bytes ≥ 1`, with or without
`MSVC_WORKAROUND_FOR_THIS_ERROR`, `bad_codegen_test` ends with
`bitmap_outline[0][0] = 0xF8`, `bitmap_outline[1][0] = 0x88` and
`bitmap_outline[2][0] = 0xF8`, and the text it prints ends in "good". -/
theorem bad_codegen_test_good (ws : Bool) (w : Nat) (hw : 1 ≤ w) :
    ∃ out row0 row1 row2,
      bad_codegen_test ws w = .ok (out, "Byte width = " ++ toString w ++ ", " ++
        (if ws then " With workaround, " else " No workaround, ") ++ " Result is " ++ "good" ++ "\n") ∧
      out[0]? = some row0 ∧ row0[0]? = some 0xF8 ∧
      out[1]? = some row1 ∧ row1[0]? = some 0x88 ∧
      out[2]? = some row2 ∧ row2[0]? = some 0xF8 := by
  obtain ⟨r0, a0, b0⟩ := outline_rows_test_bitmap w hw 0 0 (by omega) (by omega)
  obtain ⟨r1, a1, b1⟩ := outline_rows_test_bitmap w hw 1 0 (by omega) (by omega)
  obtain ⟨r2, a2, b2⟩ := outline_rows_test_bitmap w hw 2 0 (by omega) (by omega)
  exact ⟨_, r0, r1, r2, bad_codegen_test_eq ws w hw, a0, b0, a1, b1, a2, b2⟩

theorem bad_codegen_test_good_witness :
    ∃ out row0 row1 row2,
      bad_codegen_test false 8 = .ok (out, "Byte width = " ++ toString 8 ++ ", " ++
        (if false then " With workaround, " else " No workaround, ") ++ " Result is " ++ "good" ++ "\n") ∧
      out[0]? = some row0 ∧ row0[0]? = some 0xF8 ∧
      out[1]? = some row1 ∧ row1[0]? = some 0x88 ∧
      out[2]? = some row2 ∧ row2[0]? = some 0xF8 :=
  bad_codegen_test_good false 8 (by decide)

/-- C8, the claim fails: on the one-row bitmap `[[0x70]]` the run does not
produce the row `S(0) & ~R(0) = [0x88]`; it ends at line 100 with the access
`bitmap_in[1]` into a vector of size 1. -/
theorem single_row_counterexample :
    outline [[0x70]] [[0]] = .error (.out_of_range 100 1 1) ∧
    outline [[0x70]] [[0]] ≠ .ok [[0x88]] := by
  constructor
  · rfl
  · intro h
    have e : outline [[0x70]] [[0]] = .error (.out_of_range 100 1 1) := rfl
    rw [e] at h
    cases h

/-- C8 as amended: for every one-row input bitmap (and one-row output bitmap)
the computation has no defined result: line 100 takes `bitmap_in[y + 1]` with
`y = 0`, an access at index 1 into a vector of size 1, and no output row is
produced. -/
theorem single_row_out_of_range (row0 out0 : List Nat) :
    outline [row0] [out0] = .error (.out_of_range 100 1 1) := rfl

/-- C9, the claim fails: with `width_in_bytes = 0` the run of
`bad_codegen_test` ends at the store `bitmap_in[1][0] = 0x70` of line 48, an
access at index 0 into a row of size 0; on an input without rows the run ends
at `bitmap_in[0]` of line 54; on three empty rows it ends at the read `src[0]`
of line 69.  Each run ends in an access outside an object, not in a check of
the dimensions made before any access. -/
theorem zero_size_counterexample :
    bad_codegen_test false 0 = .error (.out_of_range 48 0 0) ∧
    outline [] [] = .error (.out_of_range 54 0 0) ∧
    outline [[], [], []] [[], [], []] = .error (.out_of_range 69 0 0) :=
  ⟨rfl, rfl, rfl⟩

/-- C9 as amended: the code checks no dimension.  For every input bitmap
without rows or with empty rows the computation runs into an access at an
index that is not below the size of the object accessed (undefined behaviour
in C++) and produces no output; `bad_codegen_test(0)` ends so at the store
`bitmap_in[1][0] = 0x70` of line 48. -/
theorem zero_size_out_of_range (bitmap_in bitmap_outline : List (List Nat)) (ws : Bool)
    (h0 : bitmap_in = [] ∨ ∀ r ∈ bitmap_in, r = []) :
    (∃ line index size, outline bitmap_in bitmap_outline = .error (.out_of_range line index size) ∧
      (size : Int) ≤ index) ∧
    bad_codegen_test ws 0 = .error (.out_of_range 48 0 0) := by
  refine ⟨?_, rfl⟩
  match bitmap_in, h0 with
  | [], _ => exact ⟨54, 0, 0, rfl, by decide⟩
  | r0 :: rest, h0 =>
    have hr : ∀ r ∈ r0 :: rest, r = [] := by
      rcases h0 with h | h
      · cases h
      · exact h
    have hr0 : r0 = [] := hr r0 (List.mem_cons_self _ _)
    subst hr0
    match bitmap_outline with
    | [] =>
      refine ⟨98, 0, 0, ?_, by decide⟩
      simp [outline, row_scan, scan_line0, vec_at, bind, Except.bind]
    | o0 :: orest =>
      match rest, hr with
      | [], _ =>
        refine ⟨100, 1, 1, ?_, by decide⟩
        simp [outline, row_scan, scan_line0, vec_at, bind, Except.bind]
      | r1 :: rest1, hr =>
        have hr1 : r1 = [] := hr r1 (List.mem_cons_of_mem _ (List.mem_cons_self _ _))
        subst hr1
        refine ⟨69, 0, 0, ?_, by decide⟩
        simp [outline, row_scan, scan_line0, vec_at, bind, Except.bind, combine_shift_left_right,
          read, Mem.line, Mem.set_line]

theorem zero_size_out_of_range_witness :
    (∃ line index size, outline [[], [], []] [[], [], []] = .error (.out_of_range line index size) ∧
      (size : Int) ≤ index) ∧
    bad_codegen_test false 0 = .error (.out_of_range 48 0 0) :=
  zero_size_out_of_range [[], [], []] [[], [], []] false (Or.inr (by decide))

/-- C10: for every input bitmap with at least two rows of `w ≥ 1` bytes (and an
output bitmap of the same shape) the run of the outline computation ends
without a fault.  Every access of the embedding is checked against the object
it goes into, so this says that every row index is below the height and that
every read through `src` and every write through `dst`, in the row scan and in
`combine_shift_left_right`, stays inside its row of `w` bytes.  With `w = 1`
the call reads `src[0]` and writes `dst[0]` only.  In particular
`bad_codegen_test` runs without a fault for every `width_in_bytes ≥ 1`. -/
theorem accesses_in_bounds (bitmap_in bitmap_outline : List (List Nat)) (w : Nat)
    (hh : 2 ≤ bitmap_in.length) (hw : 1 ≤ w) (hrows : ∀ r ∈ bitmap_in, r.length = w)
    (hol : bitmap_outline.length = bitmap_in.length)
    (hor : ∀ r ∈ bitmap_outline, r.length = w) :
    (∃ out, outline bitmap_in bitmap_outline = .ok out) ∧
    (∀ y dst, y < bitmap_in.length → dst.length = w →
      ∃ d, combine_shift_left_right dst (bitmap_in.getD y []) w = .ok d ∧ d.length = w) ∧
    (∀ src dst : List Nat, 1 ≤ src.length → 1 ≤ dst.length →
      combine_shift_left_right dst src 1 =
        .ok (dst.set 0 (((src.getD 0 0 <<< 1) ||| (src.getD 0 0 >>> 1)) % 256))) ∧
    (∀ ws, ∃ r, bad_codegen_test ws w = .ok r) := by
  refine ⟨⟨_, outline_eq bitmap_in bitmap_outline w hh hw hrows hol hor⟩, ?_, ?_, ?_⟩
  · intro y dst hy hd
    refine ⟨_, combine_eq_shift_line dst _ w hw (row_length bitmap_in w y hrows hy) hd, ?_⟩
    rw [length_shift_line]
    exact row_length bitmap_in w y hrows hy
  · intro src dst hs hd
    rw [combine_shift_left_right, if_pos rfl, read_eq_ok 65 src 0 0 rfl (by omega)]
    simp only [bind, Except.bind]
    rw [write_eq_ok 65 dst 0 _ 0 rfl (by omega), to_uint8_natCast]
  · intro ws
    exact ⟨_, bad_codegen_test_eq ws w hw⟩

theorem accesses_in_bounds_witness :
    (∃ out, outline [[0x01, 0x80], [0xFF, 0x00]] [[0, 0], [0, 0]] = .ok out) ∧
    (∀ y dst, y < ([[0x01, 0x80], [0xFF, 0x00]] : List (List Nat)).length → dst.length = 2 →
      ∃ d, combine_shift_left_right dst
        (([[0x01, 0x80], [0xFF, 0x00]] : List (List Nat)).getD y []) 2 = .ok d ∧ d.length = 2) ∧
    (∀ src dst : List Nat, 1 ≤ src.length → 1 ≤ dst.length →
      combine_shift_left_right dst src 1 =
        .ok (dst.set 0 (((src.getD 0 0 <<< 1) ||| (src.getD 0 0 >>> 1)) % 256))) ∧
    (∀ ws, ∃ r, bad_codegen_test ws 2 = .ok r) :=
  accesses_in_bounds [[0x01, 0x80], [0xFF, 0x00]] [[0, 0], [0, 0]] 2 (by decide) (by decide)
    (by decide) (by decide) (by decide)

theorem and_not_testBit (A r : Nat) (hA : A < 256) (hr : r < 256) (k : Nat) :
    (to_uint8 (int_and (A : Int) (int_not (r : Int)))).testBit k = (A.testBit k && !r.testBit k) := by
  have e1 : ((A : Int) % 2 ^ 32).toNat = A := by
    norm_num
    omega
  have e2 : (int_not (r : Int) % 2 ^ 32).toNat = 2 ^ 32 - (r + 1) := by
    unfold int_not
    norm_num
    omega
  have hle : A &&& (2 ^ 32 - (r + 1)) ≤ A := Nat.and_le_left
  have e3 : int_and (A : Int) (int_not (r : Int)) = ((A &&& (2 ^ 32 - (r + 1)) : Nat) : Int) := by
    unfold int_and
    simp only [e1, e2]
    rw [if_pos (by omega)]
  rw [e3, to_uint8_natCast, Nat.mod_eq_of_lt (by omega), Nat.testBit_and,
    Nat.testBit_two_pow_sub_succ (by omega)]
  by_cases hk : k < 32
  · simp [hk]
  · rw [testBit_of_lt_256 A hA k (by omega)]
    simp

theorem shift_byte_lt (src : List Nat) (x : Nat) : shift_byte src x < 256 := by
  unfold shift_byte
  omega

theorem shift_bits (a b c k : Nat) (ha : a < 256) (hb : b < 256) (hk : k < 8) :
    ((((a <<< 1) ||| (b >>> 7)) % 256 ||| (c ||| (a >>> 1)) % 256) % 256).testBit k =
      ((decide (1 ≤ k) && a.testBit (k - 1)) || (decide (k = 0) && b.testBit 7) ||
        c.testBit k || (decide (k < 7) && a.testBit (k + 1))) := by
  have h256 : (256 : Nat) = 2 ^ 8 := by norm_num
  simp only [h256, Nat.testBit_mod_two_pow, Nat.testBit_or, Nat.testBit_shiftLeft,
    Nat.testBit_shiftRight]
  have e1 : 1 + k = k + 1 := by omega
  rw [e1]
  by_cases h0 : k = 0
  · subst h0
    simp [Bool.or_assoc]
  · have hb7 : b.testBit (7 + k) = false := testBit_of_lt_256 b hb _ (by omega)
    by_cases h7 : k < 7
    · simp [hk, h0, h7, hb7, Nat.one_le_iff_ne_zero, Bool.or_assoc]
    · have e2 : k + 1 = 8 := by omega
      simp [hk, h0, h7, hb7, Nat.one_le_iff_ne_zero, e2, testBit_of_lt_256 a ha 8 (by omega),
        Bool.or_assoc]

theorem shift_pixel (src : List Nat) (hb : ∀ b ∈ src, b < 256) (p : Nat)
    (hp : p < 8 * src.length) :
    row_pixel (shift_line src) p =
      ((decide (1 ≤ p) && row_pixel src (p - 1)) || row_pixel src (p + 1)) := by
  have ha := getD_lt_256 src hb (p / 8)
  have hb1 := getD_lt_256 src hb (p / 8 + 1)
  have hk : 7 - p % 8 < 8 := by omega
  unfold row_pixel
  rw [getD_shift_line src (p / 8) (by omega), shift_byte, shift_bits _ _ _ _ ha hb1 hk]
  by_cases h0 : p % 8 = 0
  · -- leftmost pixel of the byte
    have e1 : (p + 1) / 8 = p / 8 := by omega
    have e2 : (p + 1) % 8 = 1 := by omega
    rw [e1, e2, h0]
    by_cases hx : 1 ≤ p / 8
    · have e3 : (p - 1) / 8 = p / 8 - 1 := by omega
      have e4 : (p - 1) % 8 = 7 := by omega
      have e5 : 1 ≤ p := by omega
      rw [e3, e4, if_pos hx, Nat.testBit_shiftLeft]
      simp [e5]
      rw [Bool.or_comm]
    · have e5 : ¬ (1 ≤ p) := by omega
      rw [if_neg hx]
      simp [e5]
  · have e5 : 1 ≤ p := by omega
    have hc : (if 1 ≤ p / 8 then src.getD (p / 8 - 1) 0 <<< 7 else 0).testBit (7 - p % 8) = false := by
      split
      · rw [Nat.testBit_shiftLeft]
        have : ¬ (7 - p % 8 ≥ 7) := by omega
        simp [this]
      · simp
    rw [hc]
    by_cases h7 : p % 8 = 7
    · -- rightmost pixel of the byte
      have e1 : (p + 1) / 8 = p / 8 + 1 := by omega
      have e2 : (p + 1) % 8 = 0 := by omega
      have e3 : (p - 1) / 8 = p / 8 := by omega
      have e4 : (p - 1) % 8 = 6 := by omega
      rw [e1, e2, e3, e4, h7]
      simp [e5]
      rw [Bool.or_comm]
    · have e1 : (p + 1) / 8 = p / 8 := by omega
      have e2 : (p + 1) % 8 = p % 8 + 1 := by omega
      have e3 : (p - 1) / 8 = p / 8 := by omega
      have e4 : (p - 1) % 8 = p % 8 - 1 := by omega
      have e6 : 7 - (p % 8 - 1) = 7 - p % 8 + 1 := by omega
      have e7 : 7 - (p % 8 + 1) = 7 - p % 8 - 1 := by omega
      have e8 : 7 - p % 8 < 7 := by omega
      have e9 : 1 ≤ 7 - p % 8 := by omega
      have e10 : ¬ (7 - p % 8 = 0) := by omega
      rw [e1, e2, e3, e4, e6, e7]
      simp only [e5, e8, e9, e10, decide_True, decide_False, Bool.true_and, Bool.false_and,
        Bool.or_false]
      rw [Bool.or_comm]

theorem row_pixel_map_range (w : Nat) (g : Nat → Nat) (p : Nat) (hp : p < 8 * w) :
    row_pixel ((List.range w).map g) p = (g (p / 8)).testBit (7 - p % 8) := by
  rw [row_pixel, getD_map_range _ _ _ (by omega)]

theorem testBit_shift_line (bm : List (List Nat)) (w : Nat) (hrows : ∀ r ∈ bm, r.length = w)
    (hbytes : ∀ r ∈ bm, ∀ b ∈ r, b < 256) (k p : Nat) (hk : k < bm.length) (hp : p < 8 * w) :
    ((shift_line (bm.getD k [])).getD (p / 8) 0).testBit (7 - p % 8) = beside bm k p := by
  have hlen := row_length bm w k hrows hk
  have hmem : bm.getD k [] ∈ bm := by
    rw [List.getD_eq_getElem?_getD, List.getElem?_eq_getElem hk]
    exact List.getElem_mem hk
  exact shift_pixel (bm.getD k []) (hbytes _ hmem) p (by rw [hlen]; exact hp)

theorem getD_getD_lt_256 (bm : List (List Nat)) (hbytes : ∀ r ∈ bm, ∀ b ∈ r, b < 256)
    (k x : Nat) : (bm.getD k []).getD x 0 < 256 := by
  by_cases hk : k < bm.length
  · apply getD_lt_256
    apply hbytes
    rw [List.getD_eq_getElem?_getD, List.getElem?_eq_getElem hk]
    exact List.getElem_mem hk
  · have e : bm.getD k [] = [] := by
      rw [List.getD_eq_getElem?_getD, List.getElem?_eq_none (by omega)]
      rfl
    rw [e]
    simp

theorem getD_shift_line_lt (src : List Nat) (x : Nat) : (shift_line src).getD x 0 < 256 := by
  by_cases hx : x < src.length
  · rw [getD_shift_line src x hx]
    exact shift_byte_lt src x
  · rw [getD_of_length_le _ _ (by rw [length_shift_line]; omega)]
    omega

theorem or_lt_256 (a b : Nat) (ha : a < 256) (hb : b < 256) : a ||| b < 256 := by
  have h : (256 : Nat) = 2 ^ 8 := by norm_num
  rw [h] at ha hb ⊢
  exact Nat.or_lt_two_pow ha hb

theorem getD_outline_rows (bm : List (List Nat)) (w y : Nat) (hy : y < bm.length) :
    (outline_rows bm w).getD y [] = (if y = 0 then first_row bm w
      else if y + 1 < bm.length then middle_row bm w y else last_row bm w y) := by
  rw [List.getD_eq_getElem?_getD, getElem?_outline_rows bm w y hy]
  rfl

theorem pixel_outline_rows (bm : List (List Nat)) (w : Nat) (hh : 2 ≤ bm.length)
    (hrows : ∀ r ∈ bm, r.length = w) (hbytes : ∀ r ∈ bm, ∀ b ∈ r, b < 256)
    (y p : Nat) (hy : y < bm.length) (hp : p < 8 * w) :
    pixel (outline_rows bm w) y p = (around bm y p && !pixel bm y p) := by
  have hS := fun k => getD_shift_line_lt (bm.getD k []) (p / 8)
  have hR := fun k => getD_getD_lt_256 bm hbytes k (p / 8)
  have hT := fun k (hk : k < bm.length) => testBit_shift_line bm w hrows hbytes k p hk hp
  have hP : ∀ k, ((bm.getD k []).getD (p / 8) 0).testBit (7 - p % 8) = pixel bm k p := fun _ => rfl
  rw [pixel, getD_outline_rows bm w y hy, around]
  by_cases hy0 : y = 0
  · subst hy0
    rw [if_pos rfl, first_row, row_pixel_map_range _ _ _ hp,
      and_not_testBit _ _ (or_lt_256 _ _ (or_lt_256 _ _ (hS 0) (hS 1)) (hR 1)) (hR 0),
      Nat.testBit_or, Nat.testBit_or, hT 0 (by omega), hT 1 (by omega), hP, hP]
    have h1 : (0 : Nat) + 1 < bm.length := by omega
    simp [h1, Bool.or_assoc]
  · by_cases hy1 : y + 1 < bm.length
    · rw [if_neg hy0, if_pos hy1, middle_row, row_pixel_map_range _ _ _ hp,
        and_not_testBit _ _ (or_lt_256 _ _ (or_lt_256 _ _ (or_lt_256 _ _ (or_lt_256 _ _
          (hS (y - 1)) (hS y)) (hS (y + 1))) (hR (y - 1))) (hR (y + 1))) (hR y),
        Nat.testBit_or, Nat.testBit_or, Nat.testBit_or, Nat.testBit_or,
        hT (y - 1) (by omega), hT y hy, hT (y + 1) hy1, hP, hP, hP]
      have h1 : 1 ≤ y := by omega
      simp only [h1, hy1, decide_True, Bool.true_and]
      cases beside bm (y - 1) p <;> cases beside bm y p <;> cases beside bm (y + 1) p <;>
        cases pixel bm (y - 1) p <;> cases pixel bm (y + 1) p <;> rfl
    · rw [if_neg hy0, if_neg hy1, last_row, row_pixel_map_range _ _ _ hp,
        and_not_testBit _ _ (or_lt_256 _ _ (or_lt_256 _ _ (hS (y - 1)) (hS y)) (hR (y - 1))) (hR y),
        Nat.testBit_or, Nat.testBit_or, hT (y - 1) (by omega), hT y hy, hP, hP]
      have h1 : 1 ≤ y := by omega
      simp only [h1, hy1, decide_True, decide_False, Bool.true_and, Bool.false_and, Bool.or_false]
      cases beside bm (y - 1) p <;> cases beside bm y p <;> cases pixel bm (y - 1) p <;> rfl

theorem pixel_inside (bm : List (List Nat)) (w : Nat) (hrows : ∀ r ∈ bm, r.length = w)
    (y p : Nat) (h : pixel bm y p = true) : y < bm.length ∧ p < 8 * w := by
  by_cases hy : y < bm.length
  · refine ⟨hy, ?_⟩
    by_cases hp : p < 8 * w
    · exact hp
    · have hlen := row_length bm w y hrows hy
      rw [pixel, row_pixel, getD_of_length_le _ _ (by omega)] at h
      simp at h
  · have e : bm.getD y [] = [] := by
      rw [List.getD_eq_getElem?_getD, List.getElem?_eq_none (by omega)]
      rfl
    rw [pixel, row_pixel, e] at h
    simp at h

theorem around_of_pixel (bm : List (List Nat)) (y p y1 p1 : Nat)
    (hpix : pixel bm y1 p1 = true) (hin : y1 < bm.length)
    (hy1 : y1 + 1 = y ∨ y1 = y ∨ y1 = y + 1) (hp1 : p1 + 1 = p ∨ p1 = p ∨ p1 = p + 1)
    (hne : ¬ (y1 = y ∧ p1 = p)) : around bm y p = true := by
  rcases hy1 with h | h | h <;> rcases hp1 with h2 | h2 | h2
  · subst h; subst h2
    simp [around, beside, hpix]
  · subst h; subst h2
    simp [around, beside, hpix]
  · subst h; subst h2
    simp [around, beside, hpix]
  · subst h; subst h2
    simp [around, beside, hpix]
  · exact absurd ⟨h, h2⟩ hne
  · subst h; subst h2
    simp [around, beside, hpix]
  · subst h; subst h2
    simp [around, beside, hpix, hin]
  · subst h; subst h2
    simp [around, beside, hpix, hin]
  · subst h; subst h2
    simp [around, beside, hpix, hin]

theorem neighbour_of_pixel (bm : List (List Nat)) (w : Nat) (hrows : ∀ r ∈ bm, r.length = w)
    (y p y1 p1 : Nat) (hpix : pixel bm y1 p1 = true)
    (hy1 : y1 + 1 = y ∨ y1 = y ∨ y1 = y + 1) (hp1 : p1 + 1 = p ∨ p1 = p ∨ p1 = p + 1)
    (hne : ¬ (y1 = y ∧ p1 = p)) :
    ∃ dy dx : Int, (dy = -1 ∨ dy = 0 ∨ dy = 1) ∧ (dx = -1 ∨ dx = 0 ∨ dx = 1) ∧
      ¬ (dy = 0 ∧ dx = 0) ∧ 0 ≤ (y : Int) + dy ∧ (y : Int) + dy < bm.length ∧
      0 ≤ (p : Int) + dx ∧ (p : Int) + dx < 8 * w ∧
      pixel bm ((y : Int) + dy).toNat ((p : Int) + dx).toNat = true := by
  obtain ⟨hin1, hin2⟩ := pixel_inside bm w hrows y1 p1 hpix
  refine ⟨(y1 : Int) - y, (p1 : Int) - p, by omega, by omega, by omega, by omega, by omega,
    by omega, by omega, ?_⟩
  have e1 : ((y : Int) + ((y1 : Int) - y)).toNat = y1 := by omega
  have e2 : ((p : Int) + ((p1 : Int) - p)).toNat = p1 := by omega
  rw [e1, e2]
  exact hpix

theorem around_iff (bm : List (List Nat)) (w : Nat) (hrows : ∀ r ∈ bm, r.length = w)
    (y p : Nat) :
    around bm y p = true ↔
      ∃ dy dx : Int, (dy = -1 ∨ dy = 0 ∨ dy = 1) ∧ (dx = -1 ∨ dx = 0 ∨ dx = 1) ∧
        ¬ (dy = 0 ∧ dx = 0) ∧ 0 ≤ (y : Int) + dy ∧ (y : Int) + dy < bm.length ∧
        0 ≤ (p : Int) + dx ∧ (p : Int) + dx < 8 * w ∧
        pixel bm ((y : Int) + dy).toNat ((p : Int) + dx).toNat = true := by
  constructor
  · intro h
    simp only [around, beside, Bool.or_eq_true, Bool.and_eq_true, decide_eq_true_eq] at h
    rcases h with (⟨h1, (⟨h2, hx⟩ | hx) | hx⟩ | (⟨h2, hx⟩ | hx)) | ⟨h1, (⟨h2, hx⟩ | hx) | hx⟩
    · exact neighbour_of_pixel bm w hrows y p _ _ hx (by omega) (by omega) (by omega)
    · exact neighbour_of_pixel bm w hrows y p _ _ hx (by omega) (by omega) (by omega)
    · exact neighbour_of_pixel bm w hrows y p _ _ hx (by omega) (by omega) (by omega)
    · exact neighbour_of_pixel bm w hrows y p _ _ hx (by omega) (by omega) (by omega)
    · exact neighbour_of_pixel bm w hrows y p _ _ hx (by omega) (by omega) (by omega)
    · exact neighbour_of_pixel bm w hrows y p _ _ hx (by omega) (by omega) (by omega)
    · exact neighbour_of_pixel bm w hrows y p _ _ hx (by omega) (by omega) (by omega)
    · exact neighbour_of_pixel bm w hrows y p _ _ hx (by omega) (by omega) (by omega)
  · rintro ⟨dy, dx, hdy, hdx, hne, hy0, hy1, hp0, hp1, hpix⟩
    exact around_of_pixel bm y p _ _ hpix (by omega) (by omega) (by omega) (by omega)

/-- C2: for every input bitmap with at least two rows of `w ≥ 1` bytes and every
pixel `(y, p)` with `y < height` and `p < 8 * w`, the output pixel `(y, p)` is set
if and only if the input pixel `(y, p)` is zero and one of the pixels
`(y + dy, p + dx)`, `dy, dx ∈ {-1, 0, 1}` not both `0`, that lie inside the
bitmap is set in the input. -/
theorem outline_pixel_iff (bitmap_in bitmap_outline : List (List Nat)) (w : Nat)
    (hh : 2 ≤ bitmap_in.length) (hw : 1 ≤ w) (hrows : ∀ r ∈ bitmap_in, r.length = w)
    (hbytes : ∀ r ∈ bitmap_in, ∀ b ∈ r, b < 256)
    (hol : bitmap_outline.length = bitmap_in.length)
    (hor : ∀ r ∈ bitmap_outline, r.length = w) :
    ∃ out, outline bitmap_in bitmap_outline = .ok out ∧
      ∀ y p, y < bitmap_in.length → p < 8 * w →
        (pixel out y p = true ↔
          (pixel bitmap_in y p = false ∧
            ∃ dy dx : Int, (dy = -1 ∨ dy = 0 ∨ dy = 1) ∧ (dx = -1 ∨ dx = 0 ∨ dx = 1) ∧
              ¬ (dy = 0 ∧ dx = 0) ∧ 0 ≤ (y : Int) + dy ∧ (y : Int) + dy < bitmap_in.length ∧
              0 ≤ (p : Int) + dx ∧ (p : Int) + dx < 8 * w ∧
              pixel bitmap_in ((y : Int) + dy).toNat ((p : Int) + dx).toNat = true)) := by
  refine ⟨_, outline_eq bitmap_in bitmap_outline w hh hw hrows hol hor, ?_⟩
  intro y p hy hp
  rw [pixel_outline_rows bitmap_in w hh hrows hbytes y p hy hp, ← around_iff bitmap_in w hrows y p]
  cases around bitmap_in y p <;> cases pixel bitmap_in y p <;> simp

theorem outline_pixel_iff_witness :
    ∃ out, outline sample_2x2 [[0, 0], [0, 0]] = .ok out ∧
      ∀ y p, y < sample_2x2.length → p < 8 * 2 →
        (pixel out y p = true ↔
          (pixel sample_2x2 y p = false ∧
            ∃ dy dx : Int, (dy = -1 ∨ dy = 0 ∨ dy = 1) ∧ (dx = -1 ∨ dx = 0 ∨ dx = 1) ∧
              ¬ (dy = 0 ∧ dx = 0) ∧ 0 ≤ (y : Int) + dy ∧ (y : Int) + dy < sample_2x2.length ∧
              0 ≤ (p : Int) + dx ∧ (p : Int) + dx < 8 * 2 ∧
              pixel sample_2x2 ((y : Int) + dy).toNat ((p : Int) + dx).toNat = true)) :=
  outline_pixel_iff sample_2x2 [[0, 0], [0, 0]] 2 (by decide) (by decide) (by decide)
    (by decide) (by decide) (by decide)

theorem interior_row_formula_witness :
    ∃ (out : List (List Nat)) (S : Nat → List Nat),
      outline sample_3x2 [[0, 0], [0, 0], [0, 0]] = .ok out ∧
      (∀ k dst, k < sample_3x2.length → dst.length = 2 →
        combine_shift_left_right dst (sample_3x2.getD k []) 2 = .ok (S k)) ∧
      ∀ y x, 0 < y → y < sample_3x2.length - 1 → x < 2 →
        ∃ row, out[y]? = some row ∧ row[x]? = some (to_uint8 (int_and
          (((S (y - 1)).getD x 0 ||| (S y).getD x 0 ||| (S (y + 1)).getD x 0 |||
            (sample_3x2.getD (y - 1) []).getD x 0 ||| (sample_3x2.getD (y + 1) []).getD x 0 : Nat) : Int)
          (int_not (((sample_3x2.getD y []).getD x 0 : Nat) : Int)))) :=
  interior_row_formula sample_3x2 [[0, 0], [0, 0], [0, 0]] 2 (by decide) (by decide)
    (by decide) (by decide) (by decide)

theorem last_row_formula_witness :
    ∃ (out : List (List Nat)) (S : Nat → List Nat),
      outline sample_2x2 [[0, 0], [0, 0]] = .ok out ∧
      (∀ k dst, k < sample_2x2.length → dst.length = 2 →
        combine_shift_left_right dst (sample_2x2.getD k []) 2 = .ok (S k)) ∧
      ∀ x, x < 2 → ∃ row, out[sample_2x2.length - 1]? = some row ∧
        row[x]? = some (to_uint8 (int_and
          (((S (sample_2x2.length - 2)).getD x 0 ||| (S (sample_2x2.length - 1)).getD x 0 |||
            (sample_2x2.getD (sample_2x2.length - 2) []).getD x 0 : Nat) : Int)
          (int_not (((sample_2x2.getD (sample_2x2.length - 1) []).getD x 0 : Nat) : Int)))) :=
  last_row_formula sample_2x2 [[0, 0], [0, 0]] 2 (by decide) (by decide)
    (by decide) (by decide) (by decide)

theorem length_outline_rows (bm : List (List Nat)) (w : Nat) :
    (outline_rows bm w).length = bm.length := by
  simp [outline_rows]

theorem rows_outline_rows (bm : List (List Nat)) (w : Nat) :
    ∀ r ∈ outline_rows bm w, r.length = w := by
  intro r hr
  simp only [outline_rows, List.mem_map, List.mem_range] at hr
  obtain ⟨y, _, rfl⟩ := hr
  split
  · exact length_first_row _ _
  · split
    · exact length_middle_row _ _ _
    · exact length_last_row _ _ _

theorem outline_rows_getD (bm : List (List Nat)) (w y x : Nat) (hy : y < bm.length)
    (hx : x < w) :
    ((outline_rows bm w).getD y []).getD x 0 =
      to_uint8 (int_and ((gathered bm y x : Nat) : Int)
        (int_not (((bm.getD y []).getD x 0 : Nat) : Int))) := by
  rw [getD_outline_rows bm w y hy, gathered]
  by_cases hy0 : y = 0
  · subst hy0
    rw [if_pos rfl, if_pos rfl, first_row, getD_map_range _ _ _ hx]
  · rw [if_neg hy0, if_neg hy0]
    by_cases hy1 : y + 1 < bm.length
    · rw [if_pos hy1, if_pos hy1, middle_row, getD_map_range _ _ _ hx]
    · rw [if_neg hy1, if_neg hy1, last_row, getD_map_range _ _ _ hx]

theorem gathered_lt_256 (bm : List (List Nat)) (hbytes : ∀ r ∈ bm, ∀ b ∈ r, b < 256)
    (y x : Nat) : gathered bm y x < 256 := by
  have hS := fun k => getD_shift_line_lt (bm.getD k []) x
  have hR := fun k => getD_getD_lt_256 bm hbytes k x
  unfold gathered
  split
  · exact or_lt_256 _ _ (or_lt_256 _ _ (hS 0) (hS 1)) (hR 1)
  · split
    · exact or_lt_256 _ _ (or_lt_256 _ _ (or_lt_256 _ _ (or_lt_256 _ _
        (hS (y - 1)) (hS y)) (hS (y + 1))) (hR (y - 1))) (hR (y + 1))
    · exact or_lt_256 _ _ (or_lt_256 _ _ (hS (y - 1)) (hS y)) (hR (y - 1))

theorem mem_outline_rows (bm : List (List Nat)) (w : Nat) (r : List Nat) (b : Nat)
    (hr : r ∈ outline_rows bm w) (hb : b ∈ r) :
    ∃ y x, y < bm.length ∧ x < w ∧ b = ((outline_rows bm w).getD y []).getD x 0 := by
  have hlen := rows_outline_rows bm w r hr
  obtain ⟨y, hy, rfl⟩ := List.getElem_of_mem hr
  obtain ⟨x, hx, rfl⟩ := List.getElem_of_mem hb
  refine ⟨y, x, by rw [← length_outline_rows bm w]; exact hy, by omega, ?_⟩
  rw [List.getD_eq_getElem _ _ hy, List.getD_eq_getElem _ _ hx]

theorem getElem?_of_getD (l : List Nat) (x v : Nat) (hx : x < l.length) (h : l.getD x 0 = v) :
    l[x]? = some v := by
  rw [List.getD_eq_getElem?_getD, List.getElem?_eq_getElem hx] at h
  rw [List.getElem?_eq_getElem hx]
  simpa using h

/-- C11, the claim fails at height 1: on the one-row bitmap `[[0x01, 0x02]]` the
computation yields no output bitmap at all. -/
theorem same_size_counterexample :
    ¬ ∃ out, outline [[0x01, 0x02]] [[0, 0]] = .ok out := by
  have e : outline [[0x01, 0x02]] [[0, 0]] = .error (.out_of_range 100 1 1) := rfl
  rw [e]
  rintro ⟨out, h⟩
  cases h

/-- C11 as amended: for every input bitmap with at least two rows of `w ≥ 1`
bytes, the output bitmap has as many rows as the input and every output row has
`w` bytes; `bad_codegen_test` ends with three output rows of `width_in_bytes`
bytes. -/
theorem same_size (bitmap_in bitmap_outline : List (List Nat)) (w : Nat)
    (hh : 2 ≤ bitmap_in.length) (hw : 1 ≤ w) (hrows : ∀ r ∈ bitmap_in, r.length = w)
    (hol : bitmap_outline.length = bitmap_in.length)
    (hor : ∀ r ∈ bitmap_outline, r.length = w) :
    (∃ out, outline bitmap_in bitmap_outline = .ok out ∧ out.length = bitmap_in.length ∧
      ∀ r ∈ out, r.length = w) ∧
    (∀ ws, ∃ out text, bad_codegen_test ws w = .ok (out, text) ∧ out.length = 3 ∧
      ∀ r ∈ out, r.length = w) := by
  refine ⟨⟨_, outline_eq bitmap_in bitmap_outline w hh hw hrows hol hor,
    length_outline_rows _ _, rows_outline_rows _ _⟩, ?_⟩
  intro ws
  exact ⟨_, _, bad_codegen_test_eq ws w hw, length_outline_rows _ _, rows_outline_rows _ _⟩

theorem same_size_witness :
    (∃ out, outline sample_3x2 [[0, 0], [0, 0], [0, 0]] = .ok out ∧
      out.length = sample_3x2.length ∧ ∀ r ∈ out, r.length = 2) ∧
    (∀ ws, ∃ out text, bad_codegen_test ws 2 = .ok (out, text) ∧ out.length = 3 ∧
      ∀ r ∈ out, r.length = 2) :=
  same_size sample_3x2 [[0, 0], [0, 0], [0, 0]] 2 (by decide) (by decide) (by decide)
    (by decide) (by decide)

theorem getD_mem_of_lt (l : List Nat) (x : Nat) (hx : x < l.length) : l.getD x 0 ∈ l := by
  rw [List.getD_eq_getElem _ _ hx]
  exact List.getElem_mem hx

theorem getD_getD_of_all (bm : List (List Nat)) (v : Nat) (hall : ∀ r ∈ bm, ∀ b ∈ r, b = v)
    (w : Nat) (hrows : ∀ r ∈ bm, r.length = w) (y x : Nat) (hy : y < bm.length) (hx : x < w) :
    (bm.getD y []).getD x 0 = v := by
  have hlen := row_length bm w y hrows hy
  have hmem : bm.getD y [] ∈ bm := by
    rw [List.getD_eq_getElem _ _ hy]
    exact List.getElem_mem hy
  exact hall _ hmem _ (getD_mem_of_lt _ x (by omega))

theorem getD_getD_of_all_zero (bm : List (List Nat)) (hall : ∀ r ∈ bm, ∀ b ∈ r, b = 0)
    (y x : Nat) : (bm.getD y []).getD x 0 = 0 := by
  by_cases hy : y < bm.length
  · have hmem : bm.getD y [] ∈ bm := by
      rw [List.getD_eq_getElem _ _ hy]
      exact List.getElem_mem hy
    by_cases hx : x < (bm.getD y []).length
    · exact hall _ hmem _ (getD_mem_of_lt _ x hx)
    · exact getD_of_length_le _ _ (by omega)
  · have e : bm.getD y [] = [] := by
      rw [List.getD_eq_getElem?_getD, List.getElem?_eq_none (by omega)]
      rfl
    rw [e]
    rfl

theorem shift_line_of_all_zero (bm : List (List Nat)) (hall : ∀ r ∈ bm, ∀ b ∈ r, b = 0)
    (y x : Nat) : (shift_line (bm.getD y [])).getD x 0 = 0 := by
  by_cases hx : x < (bm.getD y []).length
  · rw [getD_shift_line _ _ hx, shift_byte, getD_getD_of_all_zero bm hall,
      getD_getD_of_all_zero bm hall, getD_getD_of_all_zero bm hall]
    simp
  · exact getD_of_length_le _ _ (by rw [length_shift_line]; omega)

theorem gathered_of_all_zero (bm : List (List Nat)) (hall : ∀ r ∈ bm, ∀ b ∈ r, b = 0)
    (y x : Nat) : gathered bm y x = 0 := by
  unfold gathered
  simp only [shift_line_of_all_zero bm hall, getD_getD_of_all_zero bm hall]
  simp

theorem and_not_255 (A : Nat) (hA : A < 256) :
    to_uint8 (int_and (A : Int) (int_not ((255 : Nat) : Int))) = 0 := by
  apply Nat.eq_of_testBit_eq
  intro k
  rw [and_not_testBit A 255 hA (by omega) k, Nat.zero_testBit]
  by_cases hk : k < 8
  · have h : Nat.testBit 255 k = true := by
      interval_cases k <;> rfl
    rw [h]
    simp
  · rw [testBit_of_lt_256 A hA k (by omega)]
    rfl

/-- C13: for every input bitmap with at least two rows of `w ≥ 1` bytes, if every
input byte is `0x00` then every byte of the output bitmap (of the same size) is
`0x00`. -/
theorem all_zero_input (bitmap_in bitmap_outline : List (List Nat)) (w : Nat)
    (hh : 2 ≤ bitmap_in.length) (hw : 1 ≤ w) (hrows : ∀ r ∈ bitmap_in, r.length = w)
    (hzero : ∀ r ∈ bitmap_in, ∀ b ∈ r, b = 0)
    (hol : bitmap_outline.length = bitmap_in.length)
    (hor : ∀ r ∈ bitmap_outline, r.length = w) :
    ∃ out, outline bitmap_in bitmap_outline = .ok out ∧ out.length = bitmap_in.length ∧
      ∀ r ∈ out, r.length = w ∧ ∀ b ∈ r, b = 0 := by
  refine ⟨_, outline_eq bitmap_in bitmap_outline w hh hw hrows hol hor,
    length_outline_rows _ _, ?_⟩
  intro r hr
  refine ⟨rows_outline_rows _ _ r hr, ?_⟩
  intro b hb
  obtain ⟨y, x, hy, hx, rfl⟩ := mem_outline_rows bitmap_in w r b hr hb
  rw [outline_rows_getD bitmap_in w y x hy hx, gathered_of_all_zero bitmap_in hzero,
    getD_getD_of_all_zero bitmap_in hzero]
  rfl

theorem all_zero_input_witness :
    ∃ out, outline [[0, 0], [0, 0], [0, 0]] [[7, 7], [7, 7], [7, 7]] = .ok out ∧
      out.length = ([[0, 0], [0, 0], [0, 0]] : List (List Nat)).length ∧
      ∀ r ∈ out, r.length = 2 ∧ ∀ b ∈ r, b = 0 :=
  all_zero_input [[0, 0], [0, 0], [0, 0]] [[7, 7], [7, 7], [7, 7]] 2 (by decide) (by decide)
    (by decide) (by decide) (by decide) (by decide)

/-- C14: for every input bitmap with at least two rows of `w ≥ 1` bytes, if every
input byte is `0xFF` then every byte of the output bitmap (of the same size) is
`0x00`. -/
theorem all_one_input (bitmap_in bitmap_outline : List (List Nat)) (w : Nat)
    (hh : 2 ≤ bitmap_in.length) (hw : 1 ≤ w) (hrows : ∀ r ∈ bitmap_in, r.length = w)
    (hone : ∀ r ∈ bitmap_in, ∀ b ∈ r, b = 0xFF)
    (hol : bitmap_outline.length = bitmap_in.length)
    (hor : ∀ r ∈ bitmap_outline, r.length = w) :
    ∃ out, outline bitmap_in bitmap_outline = .ok out ∧ out.length = bitmap_in.length ∧
      ∀ r ∈ out, r.length = w ∧ ∀ b ∈ r, b = 0 := by
  have hbytes : ∀ r ∈ bitmap_in, ∀ b ∈ r, b < 256 := by
    intro r hr b hb
    rw [hone r hr b hb]
    decide
  refine ⟨_, outline_eq bitmap_in bitmap_outline w hh hw hrows hol hor,
    length_outline_rows _ _, ?_⟩
  intro r hr
  refine ⟨rows_outline_rows _ _ r hr, ?_⟩
  intro b hb
  obtain ⟨y, x, hy, hx, rfl⟩ := mem_outline_rows bitmap_in w r b hr hb
  rw [outline_rows_getD bitmap_in w y x hy hx,
    getD_getD_of_all bitmap_in 0xFF hone w hrows y x hy hx]
  exact and_not_255 _ (gathered_lt_256 bitmap_in hbytes y x)

theorem all_one_input_witness :
    ∃ out, outline [[0xFF, 0xFF], [0xFF, 0xFF]] [[7, 7], [7, 7]] = .ok out ∧
      out.length = ([[0xFF, 0xFF], [0xFF, 0xFF]] : List (List Nat)).length ∧
      ∀ r ∈ out, r.length = 2 ∧ ∀ b ∈ r, b = 0 :=
  all_one_input [[0xFF, 0xFF], [0xFF, 0xFF]] [[7, 7], [7, 7]] 2 (by decide) (by decide)
    (by decide) (by decide) (by decide) (by decide)

/-- C15: for every input bitmap with at least two rows of `w ≥ 1` bytes, every
row `y` and every byte index `x`, the output byte has no bit in common with the
input byte, `out[y][x] & in[y][x] == 0`, and lies in `0 .. 255`. -/
theorem output_disjoint_from_input (bitmap_in bitmap_outline : List (List Nat)) (w : Nat)
    (hh : 2 ≤ bitmap_in.length) (hw : 1 ≤ w) (hrows : ∀ r ∈ bitmap_in, r.length = w)
    (hbytes : ∀ r ∈ bitmap_in, ∀ b ∈ r, b < 256)
    (hol : bitmap_outline.length = bitmap_in.length)
    (hor : ∀ r ∈ bitmap_outline, r.length = w) :
    ∃ out, outline bitmap_in bitmap_outline = .ok out ∧
      ∀ y x, y < bitmap_in.length → x < w →
        ∃ row o, out[y]? = some row ∧ row[x]? = some o ∧
          o &&& (bitmap_in.getD y []).getD x 0 = 0 ∧ o < 256 := by
  refine ⟨_, outline_eq bitmap_in bitmap_outline w hh hw hrows hol hor, ?_⟩
  intro y x hy hx
  have hy2 : y < (outline_rows bitmap_in w).length := by rw [length_outline_rows]; exact hy
  have hmem : (outline_rows bitmap_in w).getD y [] ∈ outline_rows bitmap_in w := by
    rw [List.getD_eq_getElem _ _ hy2]
    exact List.getElem_mem hy2
  have hlen := rows_outline_rows bitmap_in w _ hmem
  refine ⟨(outline_rows bitmap_in w).getD y [], _, ?_,
    getElem?_of_getD _ x _ (by omega) (outline_rows_getD bitmap_in w y x hy hx), ?_, ?_⟩
  · rw [List.getD_eq_getElem _ _ hy2, List.getElem?_eq_getElem hy2]
  · apply Nat.eq_of_testBit_eq
    intro k
    rw [Nat.testBit_and, and_not_testBit _ _ (gathered_lt_256 bitmap_in hbytes y x)
      (getD_getD_lt_256 bitmap_in hbytes y x), Nat.zero_testBit]
    cases (gathered bitmap_in y x).testBit k <;>
      cases ((bitmap_in.getD y []).getD x 0).testBit k <;> rfl
  · unfold to_uint8
    omega

theorem output_disjoint_from_input_witness :
    ∃ out, outline sample_3x2 [[0, 0], [0, 0], [0, 0]] = .ok out ∧
      ∀ y x, y < sample_3x2.length → x < 2 →
        ∃ row o, out[y]? = some row ∧ row[x]? = some o ∧
          o &&& (sample_3x2.getD y []).getD x 0 = 0 ∧ o < 256 :=
  output_disjoint_from_input sample_3x2 [[0, 0], [0, 0], [0, 0]] 2 (by decide) (by decide)
    (by decide) (by decide) (by decide) (by decide)

/-- C16: the outline computation is not idempotent: on the bitmap of three
one-byte rows `0x00, 0x70, 0x00` the outline is `0xF8, 0x88, 0xF8`, and the
outline of that is `0x04, 0x74, 0x04`. -/
theorem outline_not_idempotent :
    ∃ x out1 out2 : List (List Nat), 2 ≤ x.length ∧ (∀ r ∈ x, r.length = 1) ∧
      outline x [[0], [0], [0]] = .ok out1 ∧ outline out1 [[0], [0], [0]] = .ok out2 ∧
      out2 ≠ out1 :=
  ⟨[[0x00], [0x70], [0x00]], [[0xF8], [0x88], [0xF8]], [[0x04], [0x74], [0x04]],
    by decide, by decide, rfl, rfl, by decide⟩

/-- C20: for every `width_in_bytes ≥ 2`, every byte in the columns
`1 .. width_in_bytes - 1` of the three output rows of `bad_codegen_test` is
`0x00`; the carry `0x70 << 7` converted to `uint8_t` is `0`. -/
theorem other_columns_zero (ws : Bool) (w : Nat) (hw : 2 ≤ w) :
    ∃ out text, bad_codegen_test ws w = .ok (out, text) ∧
      (∀ y x, y < 3 → 1 ≤ x → x < w → ∃ row, out[y]? = some row ∧ row[x]? = some 0) ∧
      to_uint8 ((0x70 <<< 7 : Nat) : Int) = 0 := by
  refine ⟨_, _, bad_codegen_test_eq ws w (by omega), ?_, rfl⟩
  intro y x hy hx1 hx
  obtain ⟨row, h1, h2⟩ := outline_rows_test_bitmap w (by omega) y x hy hx
  rw [if_neg (by omega)] at h2
  exact ⟨row, h1, h2⟩

theorem other_columns_zero_witness :
    ∃ out text, bad_codegen_test false 9 = .ok (out, text) ∧
      (∀ y x, y < 3 → 1 ≤ x → x < 9 → ∃ row, out[y]? = some row ∧ row[x]? = some 0) ∧
      to_uint8 ((0x70 <<< 7 : Nat) : Int) = 0 :=
  other_columns_zero false 9 (by decide)

theorem scan_middle_lines_prefix (bitmap_in : List (List Nat)) (w : Nat)
    (hw : 1 ≤ w) (hrows : ∀ r ∈ bitmap_in, r.length = w) (n : Nat) :
    ∀ (k : Nat) (s : Scan), 1 ≤ k → k + n + 1 ≤ bitmap_in.length → ScanInv bitmap_in w k s →
    ∃ s1, scan_middle_lines bitmap_in w n s = .ok s1 ∧ ScanInv bitmap_in w (k + n) s1 := by
  induction n with
  | zero =>
    intro k s _ _ inv
    exact ⟨s, rfl, inv⟩
  | succ n ih =>
    intro k s hk1 hk inv
    obtain ⟨s1, e1, inv1⟩ := scan_middle_inv bitmap_in w k s hw hrows hk1 (by omega) inv
    obtain ⟨s2, e2, inv2⟩ := ih (k + 1) s1 (by omega) (by omega) inv1
    refine ⟨s2, ?_, ?_⟩
    · rw [scan_middle_lines, e1]
      exact e2
    · have : k + (n + 1) = k + 1 + n := by omega
      rw [this]
      exact inv2

theorem scan_middle_lines_add (bitmap_in : List (List Nat)) (w : Nat) (a b : Nat) :
    ∀ s : Scan, scan_middle_lines bitmap_in w (a + b) s =
      (scan_middle_lines bitmap_in w a s >>= scan_middle_lines bitmap_in w b) := by
  induction a with
  | zero =>
    intro s
    rw [Nat.zero_add]
    rfl
  | succ a ih =>
    intro s
    have e : a + 1 + b = (a + b) + 1 := by omega
    rw [e, scan_middle_lines, scan_middle_lines]
    cases h : scan_middle bitmap_in w s with
    | error f => rfl
    | ok s1 =>
      simp only [bind, Except.bind]
      exact ih s1

theorem row_scan_split (bitmap_in : List (List Nat)) (w : Nat) (m : Mem) (s0 s : Scan)
    (n : Nat) (hn : n + 2 ≤ bitmap_in.length) (hy : s0.y = 1)
    (e0 : scan_line0 bitmap_in w m = .ok s0)
    (e1 : scan_middle_lines bitmap_in w n s0 = .ok s) :
    row_scan bitmap_in bitmap_in.length w m =
      (scan_middle_lines bitmap_in w (bitmap_in.length - 2 - n) s >>= scan_last bitmap_in w) := by
  have hc : size_t_pred bitmap_in.length - s0.y = n + (bitmap_in.length - 2 - n) := by
    rw [size_t_pred_pos _ (by omega), hy]
    omega
  rw [row_scan, e0]
  simp only [bind, Except.bind]
  rw [hc, scan_middle_lines_add, e1]
  rfl

theorem scan_line0_pointers (bitmap_in : List (List Nat)) (w : Nat) (m : Mem) (s0 : Scan)
    (e0 : scan_line0 bitmap_in w m = .ok s0) :
    s0.prev_line_LR = .buf2 ∧ s0.curr_line_LR = .buf3 ∧ s0.next_line_LR = .buf1 := by
  rw [scan_line0] at e0
  simp only [bind, Except.bind, pure, Except.pure] at e0
  repeat' split at e0
  all_goals first
    | (cases e0; done)
    | (cases e0; exact ⟨rfl, rfl, rfl⟩)

/-- C17: for every input bitmap with `h ≥ 2` rows of `w ≥ 1` bytes and every
`y = n + 1` with `1 ≤ y ≤ h - 1`, the state `s` in which the loop condition of
line 117 is tested with index `y` (reached from line 0 by `n` iterations, and
from which the rest of the row scan runs) has `prev_line_LR` holding `S(y-1)`,
`curr_line_LR` holding `S(y)`, `src_prev` at row `y - 1` and `src_curr` at row
`y`, where `S(k)` is what `combine_shift_left_right` produces from input row
`k`.  For `y = h - 1` this is the state in which the last-line block starts. -/
theorem loop_invariant (bitmap_in : List (List Nat)) (w : Nat) (m : Mem) (n : Nat)
    (hh : 2 ≤ bitmap_in.length) (hw : 1 ≤ w) (hrows : ∀ r ∈ bitmap_in, r.length = w)
    (hol : m.bitmap_outline.length = bitmap_in.length)
    (hor : ∀ r ∈ m.bitmap_outline, r.length = w)
    (h1 : m.buf1.length = w) (h2 : m.buf2.length = w) (h3 : m.buf3.length = w)
    (hn : n + 2 ≤ bitmap_in.length) :
    ∃ (s0 s : Scan) (S : Nat → List Nat),
      scan_line0 bitmap_in w m = .ok s0 ∧
      scan_middle_lines bitmap_in w n s0 = .ok s ∧
      row_scan bitmap_in bitmap_in.length w m =
        (scan_middle_lines bitmap_in w (bitmap_in.length - 2 - n) s >>= scan_last bitmap_in w) ∧
      (∀ k dst, k < bitmap_in.length → dst.length = w →
        combine_shift_left_right dst (bitmap_in.getD k []) w = .ok (S k)) ∧
      s.y = n + 1 ∧
      s.mem.line s.prev_line_LR = S n ∧
      s.mem.line s.curr_line_LR = S (n + 1) ∧
      s.src_prev = n ∧
      s.src_curr = n + 1 := by
  obtain ⟨s0, e0, inv0⟩ := scan_line0_inv bitmap_in w m hh hw hrows hol hor h2 h3 h1
  obtain ⟨s, e1, inv⟩ := scan_middle_lines_prefix bitmap_in w hw hrows n 1 s0
    (by omega) (by omega) inv0
  refine ⟨s0, s, fun k => shift_line (bitmap_in.getD k []), e0, e1,
    row_scan_split bitmap_in w m s0 s n hn inv0.y_eq e0 e1, ?_, ?_, ?_, ?_, ?_, ?_⟩
  · intro k dst hk hd
    exact combine_eq_shift_line dst _ w hw (row_length bitmap_in w k hrows hk) hd
  · have := inv.y_eq
    omega
  · have e : 1 + n - 1 = n := by omega
    rw [inv.prev_line, e]
  · have e : 1 + n = n + 1 := by omega
    rw [inv.curr_line, e]
  · have := inv.prev_eq
    omega
  · have := inv.curr_eq
    omega

theorem loop_invariant_witness :
    ∃ (s0 s : Scan) (S : Nat → List Nat),
      scan_line0 sample_3x2 2 sample_mem = .ok s0 ∧
      scan_middle_lines sample_3x2 2 1 s0 = .ok s ∧
      row_scan sample_3x2 sample_3x2.length 2 sample_mem =
        (scan_middle_lines sample_3x2 2 (sample_3x2.length - 2 - 1) s >>= scan_last sample_3x2 2) ∧
      (∀ k dst, k < sample_3x2.length → dst.length = 2 →
        combine_shift_left_right dst (sample_3x2.getD k []) 2 = .ok (S k)) ∧
      s.y = 1 + 1 ∧
      s.mem.line s.prev_line_LR = S 1 ∧
      s.mem.line s.curr_line_LR = S (1 + 1) ∧
      s.src_prev = 1 ∧
      s.src_curr = 1 + 1 :=
  loop_invariant sample_3x2 2 sample_mem 1 (by decide) (by decide) (by decide) (by decide)
    (by decide) (by decide) (by decide) (by decide) (by decide)

/-- C18: for every input bitmap with `h ≥ 2` rows of `w ≥ 1` bytes, the line
pointers after the first rotation are `buf2`, `buf3`, `buf1` (they are declared
as `buf1`, `buf2`, `buf3`), and in every state `s` in which the loop condition
of line 117 is tested (after a rotation and before the next one) the pointers
`prev_line_LR`, `curr_line_LR`, `next_line_LR` are pairwise distinct and a
permutation of `buf1`, `buf2`, `buf3`; so a write of a whole line through
`next_line_LR` changes neither what `prev_line_LR` and `curr_line_LR` show nor
the output bitmap. -/
theorem line_pointers_distinct (bitmap_in : List (List Nat)) (w : Nat) (m : Mem) (n : Nat)
    (hh : 2 ≤ bitmap_in.length) (hw : 1 ≤ w) (hrows : ∀ r ∈ bitmap_in, r.length = w)
    (hol : m.bitmap_outline.length = bitmap_in.length)
    (hor : ∀ r ∈ m.bitmap_outline, r.length = w)
    (h1 : m.buf1.length = w) (h2 : m.buf2.length = w) (h3 : m.buf3.length = w)
    (hn : n + 2 ≤ bitmap_in.length) :
    ∃ (s0 s : Scan),
      scan_line0 bitmap_in w m = .ok s0 ∧
      scan_middle_lines bitmap_in w n s0 = .ok s ∧
      s0.prev_line_LR = .buf2 ∧ s0.curr_line_LR = .buf3 ∧ s0.next_line_LR = .buf1 ∧
      s.prev_line_LR ≠ s.curr_line_LR ∧ s.curr_line_LR ≠ s.next_line_LR ∧
      s.prev_line_LR ≠ s.next_line_LR ∧
      List.Perm [s.prev_line_LR, s.curr_line_LR, s.next_line_LR]
        [LineBuf.buf1, LineBuf.buf2, LineBuf.buf3] ∧
      ∀ v : List Nat,
        (s.mem.set_line s.next_line_LR v).line s.prev_line_LR = s.mem.line s.prev_line_LR ∧
        (s.mem.set_line s.next_line_LR v).line s.curr_line_LR = s.mem.line s.curr_line_LR ∧
        (s.mem.set_line s.next_line_LR v).bitmap_outline = s.mem.bitmap_outline := by
  obtain ⟨s0, e0, inv0⟩ := scan_line0_inv bitmap_in w m hh hw hrows hol hor h2 h3 h1
  obtain ⟨s, e1, inv⟩ := scan_middle_lines_prefix bitmap_in w hw hrows n 1 s0
    (by omega) (by omega) inv0
  obtain ⟨p1, p2, p3⟩ := scan_line0_pointers bitmap_in w m s0 e0
  refine ⟨s0, s, e0, e1, p1, p2, p3, inv.ne_prev_curr, inv.ne_curr_next, inv.ne_prev_next,
    ?_, ?_⟩
  · have a := inv.ne_prev_curr
    have b := inv.ne_curr_next
    have c := inv.ne_prev_next
    revert a b c
    cases s.prev_line_LR <;> cases s.curr_line_LR <;> cases s.next_line_LR <;>
      intro a b c <;> first
        | exact absurd rfl a
        | exact absurd rfl b
        | exact absurd rfl c
        | decide
  · intro v
    exact ⟨line_set_line_ne _ _ _ _ (Ne.symm inv.ne_prev_next),
      line_set_line_ne _ _ _ _ (Ne.symm inv.ne_curr_next), bitmap_outline_set_line _ _ _⟩

theorem line_pointers_distinct_witness :
    ∃ (s0 s : Scan),
      scan_line0 sample_3x2 2 sample_mem = .ok s0 ∧
      scan_middle_lines sample_3x2 2 1 s0 = .ok s ∧
      s0.prev_line_LR = .buf2 ∧ s0.curr_line_LR = .buf3 ∧ s0.next_line_LR = .buf1 ∧
      s.prev_line_LR ≠ s.curr_line_LR ∧ s.curr_line_LR ≠ s.next_line_LR ∧
      s.prev_line_LR ≠ s.next_line_LR ∧
      List.Perm [s.prev_line_LR, s.curr_line_LR, s.next_line_LR]
        [LineBuf.buf1, LineBuf.buf2, LineBuf.buf3] ∧
      ∀ v : List Nat,
        (s.mem.set_line s.next_line_LR v).line s.prev_line_LR = s.mem.line s.prev_line_LR ∧
        (s.mem.set_line s.next_line_LR v).line s.curr_line_LR = s.mem.line s.curr_line_LR ∧
        (s.mem.set_line s.next_line_LR v).bitmap_outline = s.mem.bitmap_outline :=
  line_pointers_distinct sample_3x2 2 sample_mem 1 (by decide) (by decide) (by decide)
    (by decide) (by decide) (by decide) (by decide) (by decide) (by decide)

/-- C19: for every input bitmap with at least two rows of `w ≥ 1` bytes, two runs
of the row scan that start from storages `m` and `m1` with arbitrary content
(scratch vectors of `w` bytes, output bitmaps of the size of the input) both end
without a fault and with the same output bitmap, the one `outline` computes
from zero-filled scratch vectors. -/
theorem output_independent_of_storage (bitmap_in : List (List Nat)) (w : Nat) (m m1 : Mem)
    (hh : 2 ≤ bitmap_in.length) (hw : 1 ≤ w) (hrows : ∀ r ∈ bitmap_in, r.length = w)
    (hol : m.bitmap_outline.length = bitmap_in.length)
    (hor : ∀ r ∈ m.bitmap_outline, r.length = w)
    (h1 : m.buf1.length = w) (h2 : m.buf2.length = w) (h3 : m.buf3.length = w)
    (hol1 : m1.bitmap_outline.length = bitmap_in.length)
    (hor1 : ∀ r ∈ m1.bitmap_outline, r.length = w)
    (k1 : m1.buf1.length = w) (k2 : m1.buf2.length = w) (k3 : m1.buf3.length = w) :
    ∃ r r1 : Mem,
      row_scan bitmap_in bitmap_in.length w m = .ok r ∧
      row_scan bitmap_in bitmap_in.length w m1 = .ok r1 ∧
      r.bitmap_outline = r1.bitmap_outline ∧
      outline bitmap_in m.bitmap_outline = .ok r.bitmap_outline ∧
      outline bitmap_in m1.bitmap_outline = .ok r.bitmap_outline := by
  obtain ⟨r, e, hr⟩ := row_scan_eq bitmap_in w m hh hw hrows hol hor h1 h2 h3
  obtain ⟨r1, e1, hr1⟩ := row_scan_eq bitmap_in w m1 hh hw hrows hol1 hor1 k1 k2 k3
  refine ⟨r, r1, e, e1, by rw [hr, hr1], ?_, ?_⟩
  · rw [hr]
    exact outline_eq bitmap_in _ w hh hw hrows hol hor
  · rw [hr]
    exact outline_eq bitmap_in _ w hh hw hrows hol1 hor1

theorem output_independent_of_storage_witness :
    ∃ r r1 : Mem,
      row_scan sample_3x2 sample_3x2.length 2 sample_mem = .ok r ∧
      row_scan sample_3x2 sample_3x2.length 2 sample_mem_other = .ok r1 ∧
      r.bitmap_outline = r1.bitmap_outline ∧
      outline sample_3x2 sample_mem.bitmap_outline = .ok r.bitmap_outline ∧
      outline sample_3x2 sample_mem_other.bitmap_outline = .ok r.bitmap_outline :=
  output_independent_of_storage sample_3x2 2 sample_mem sample_mem_other (by decide) (by decide)
    (by decide) (by decide) (by decide) (by decide) (by decide) (by decide) (by decide)
    (by decide) (by decide) (by decide) (by decide)

/-- C12: for every input bitmap with at least two rows of `w ≥ 1` bytes in which
exactly one pixel `(y0, p0)` is set, the set pixels of the output are exactly
the pixels `(y0 + dy, p0 + dx)` with `dy, dx ∈ {-1, 0, 1}` not both `0` that lie
inside the bitmap, and the output pixel `(y0, p0)` is zero. -/
theorem single_pixel_outline (bitmap_in bitmap_outline : List (List Nat)) (w y0 p0 : Nat)
    (hh : 2 ≤ bitmap_in.length) (hw : 1 ≤ w) (hrows : ∀ r ∈ bitmap_in, r.length = w)
    (hbytes : ∀ r ∈ bitmap_in, ∀ b ∈ r, b < 256)
    (hol : bitmap_outline.length = bitmap_in.length)
    (hor : ∀ r ∈ bitmap_outline, r.length = w)
    (hy0 : y0 < bitmap_in.length) (hp0 : p0 < 8 * w)
    (hsingle : ∀ y, y < bitmap_in.length → ∀ p, p < 8 * w →
      (pixel bitmap_in y p = true ↔ (y = y0 ∧ p = p0))) :
    ∃ out, outline bitmap_in bitmap_outline = .ok out ∧
      pixel out y0 p0 = false ∧
      ∀ y p, y < bitmap_in.length → p < 8 * w →
        (pixel out y p = true ↔
          ∃ dy dx : Int, (dy = -1 ∨ dy = 0 ∨ dy = 1) ∧ (dx = -1 ∨ dx = 0 ∨ dx = 1) ∧
            ¬ (dy = 0 ∧ dx = 0) ∧ (y : Int) = y0 + dy ∧ (p : Int) = p0 + dx) := by
  have hset : pixel bitmap_in y0 p0 = true := (hsingle y0 hy0 p0 hp0).mpr ⟨rfl, rfl⟩
  refine ⟨_, outline_eq bitmap_in bitmap_outline w hh hw hrows hol hor, ?_, ?_⟩
  · rw [pixel_outline_rows bitmap_in w hh hrows hbytes y0 p0 hy0 hp0, hset]
    simp
  · intro y p hy hp
    rw [pixel_outline_rows bitmap_in w hh hrows hbytes y p hy hp, Bool.and_eq_true,
      around_iff bitmap_in w hrows y p]
    constructor
    · rintro ⟨⟨dy, dx, hdy, hdx, hne, a1, a2, a3, a4, hpix⟩, _⟩
      obtain ⟨e1, e2⟩ := (hsingle _ (by omega) _ (by omega)).mp hpix
      exact ⟨-dy, -dx, by omega, by omega, by omega, by omega, by omega⟩
    · rintro ⟨dy, dx, hdy, hdx, hne, e1, e2⟩
      constructor
      · refine ⟨-dy, -dx, by omega, by omega, by omega, by omega, by omega, by omega,
          by omega, ?_⟩
        have f1 : ((y : Int) + -dy).toNat = y0 := by omega
        have f2 : ((p : Int) + -dx).toNat = p0 := by omega
        rw [f1, f2]
        exact hset
      · cases hq : pixel bitmap_in y p with
        | false => rfl
        | true =>
          obtain ⟨g1, g2⟩ := (hsingle y hy p hp).mp hq
          exact absurd ⟨by omega, by omega⟩ hne

theorem single_pixel_outline_witness :
    ∃ out, outline sample_single [[0, 0], [0, 0], [0, 0]] = .ok out ∧
      pixel out 1 7 = false ∧
      ∀ y p, y < sample_single.length → p < 8 * 2 →
        (pixel out y p = true ↔
          ∃ dy dx : Int, (dy = -1 ∨ dy = 0 ∨ dy = 1) ∧ (dx = -1 ∨ dx = 0 ∨ dx = 1) ∧
            ¬ (dy = 0 ∧ dx = 0) ∧ (y : Int) = (1 : Nat) + dy ∧ (p : Int) = (7 : Nat) + dx) :=
  single_pixel_outline sample_single [[0, 0], [0, 0], [0, 0]] 2 1 7 (by decide) (by decide)
    (by decide) (by decide) (by decide) (by decide) (by decide) (by decide) (by decide)

end BadCodeGen
